import Mathlib

/-!
Verification development for the ClaudeProxy reverse proxy
(`server/core/sanitize.py`, `server/core/routing.py`, `server/core/oauth.py`,
`server/core/providers.py`, `server/api/endpoints.py`,
`server/services/token_tracker.py`).

Python text is modelled as `List Char`; JSON documents as the inductive
type `Jv`; Python dicts as ordered association lists with Python
assignment semantics (replace in place, else append); a Python function
that can raise on ill-shaped data is modelled as returning an `Option`,
with `none` for the raising executions.
-/

/-- Python text (a `str`) is modelled as a list of characters. -/
abbrev Str := List Char

/-- Whitespace test matching both Python `str.strip`/`str.split` defaults on
the ASCII range and the JSON whitespace set. -/
def isWs (c : Char) : Bool :=
  c = ' ' || c = '\t' || c = '\n' || c = '\r' || c = '\x0b' || c = '\x0c'

/-- ASCII lowering of one character, modelling `str.lower` on the character
range the proxy compares (ASCII model names and header tokens). -/
def lowerChar (c : Char) : Char :=
  if 'A' ≤ c ∧ c ≤ 'Z' then Char.ofNat (c.toNat + 32) else c

/-- Model of Python `s.lower()`. -/
def asciiLower (s : Str) : Str := s.map lowerChar

/-- Model of Python `s.strip()`: drop whitespace from both ends. -/
def trimL (s : Str) : Str :=
  ((s.dropWhile isWs).reverse.dropWhile isWs).reverse

/-- Model of Python `s.split(sep)` for a one-character separator:
`"" ↦ [""]`, and every separator occurrence opens a new piece. -/
def splitOnChar (sep : Char) : Str → List Str
  | [] => [[]]
  | c :: rest =>
    if c = sep then [] :: splitOnChar sep rest
    else
      match splitOnChar sep rest with
      | [] => [[c]]
      | piece :: pieces => (c :: piece) :: pieces

/-- Model of Python `sep.join(pieces)`. -/
def joinWith (sep : Str) : List Str → Str
  | [] => []
  | [piece] => piece
  | piece :: rest => piece ++ sep ++ joinWith sep rest

/-- Substring test modelling the Python `in` operator on strings. -/
def containsL (hay needle : Str) : Bool :=
  (List.range (hay.length + 1)).any fun i => needle.isPrefixOf (hay.drop i)

/-- Fuel-indexed worker for `replaceL`; the fuel bounds the number of
characters still to scan, so `hay.length` is always enough. -/
def replaceFuel : Nat → Str → Str → Str → Str
  | 0, hay, _, _ => hay
  | _ + 1, [], _, _ => []
  | fuel + 1, c :: rest, pat, repl =>
    if pat ≠ [] ∧ pat.isPrefixOf (c :: rest) then
      repl ++ replaceFuel fuel ((c :: rest).drop pat.length) pat repl
    else
      c :: replaceFuel fuel rest pat repl

/-- Model of Python `haystack.replace(pat, repl)` (all non-overlapping
occurrences, left to right); an empty pattern is treated as no-op. -/
def replaceL (hay pat repl : Str) : Str :=
  replaceFuel hay.length hay pat repl

example : containsL "claude-sonnet-4-5".data "sonnet".data = true := by decide
example : containsL "glm-4.7".data "sonnet".data = false := by decide
example : splitOnChar ',' "a, b".data = ["a".data, " b".data] := by decide
example : trimL "  a b ".data = "a b".data := by decide
example : replaceL "m[1m]x[1m]".data "[1m]".data [] = "mx".data := by decide

/-- JSON documents (the shape of every request/response body the proxy
handles). Objects are ordered association lists, mirroring Python dict
insertion order; numbers keep their literal text. -/
inductive Jv where
  | null
  | bool (b : Bool)
  | num (tok : Str)
  | str (s : Str)
  | arr (elems : List Jv)
  | obj (fields : List (Str × Jv))

/-- Model of Python `d.get(k)` on an ordered dict: first binding wins. -/
def getF (fs : List (Str × Jv)) (k : Str) : Option Jv :=
  match fs with
  | [] => none
  | (k0, v) :: rest => if k0 = k then some v else getF rest k

/-- Model of Python `d[k] = v`: replace the value at the key position if the
key is present, else append the binding. -/
def setF (fs : List (Str × Jv)) (k : Str) (v : Jv) : List (Str × Jv) :=
  match fs with
  | [] => [(k, v)]
  | (k0, v0) :: rest => if k0 = k then (k0, v) :: rest else (k0, v0) :: setF rest k v

/-- Model of Python `del d[k]` (on the unique-keyed dicts the proxy
manipulates; removes every binding of the key, which coincides). -/
def delF (fs : List (Str × Jv)) (k : Str) : List (Str × Jv) :=
  match fs with
  | [] => []
  | (k0, v0) :: rest => if k0 = k then delF rest k else (k0, v0) :: delF rest k

/-- Model of the Python `k in d` test. -/
def hasF (fs : List (Str × Jv)) (k : Str) : Bool :=
  match fs with
  | [] => false
  | (k0, _) :: rest => k0 = k || hasF rest k

@[simp] theorem getF_setF_self (fs : List (Str × Jv)) (k : Str) (v : Jv) :
    getF (setF fs k v) k = some v := by
  induction fs with
  | nil => simp [setF, getF]
  | cons kv rest ih =>
    obtain ⟨k0, v0⟩ := kv
    by_cases h : k0 = k <;> simp [setF, getF, h, ih]

theorem getF_setF_ne (fs : List (Str × Jv)) (k k2 : Str) (v : Jv) (h : k2 ≠ k) :
    getF (setF fs k v) k2 = getF fs k2 := by
  induction fs with
  | nil => simp [setF, getF, Ne.symm h]
  | cons kv rest ih =>
    obtain ⟨k0, v0⟩ := kv
    by_cases h0 : k0 = k
    · subst h0
      simp [setF, getF, Ne.symm h]
    · simp [setF, getF, h0, ih]

theorem setF_setF (fs : List (Str × Jv)) (k : Str) (v w : Jv) :
    setF (setF fs k v) k w = setF fs k w := by
  induction fs with
  | nil => simp [setF]
  | cons kv rest ih =>
    obtain ⟨k0, v0⟩ := kv
    by_cases h : k0 = k <;> simp [setF, h, ih]

theorem setF_getF_self (fs : List (Str × Jv)) (k : Str) (v : Jv)
    (h : getF fs k = some v) : setF fs k v = fs := by
  induction fs with
  | nil => simp [getF] at h
  | cons kv rest ih =>
    obtain ⟨k0, v0⟩ := kv
    by_cases h0 : k0 = k
    · simp [getF, h0] at h
      simp [setF, h0, h]
    · simp [getF, h0] at h
      simp [setF, h0, ih h]

theorem getF_delF_ne (fs : List (Str × Jv)) (k k2 : Str) (h : k2 ≠ k) :
    getF (delF fs k) k2 = getF fs k2 := by
  induction fs with
  | nil => simp [delF]
  | cons kv rest ih =>
    obtain ⟨k0, v0⟩ := kv
    by_cases h0 : k0 = k
    · subst h0
      simpa [delF, getF, Ne.symm h] using ih
    · by_cases h2 : k0 = k2
      · subst h2
        simp [delF, getF, h0, h]
      · simp [delF, getF, h0, h2, ih]

@[simp] theorem getF_delF_self (fs : List (Str × Jv)) (k : Str) :
    getF (delF fs k) k = none := by
  induction fs with
  | nil => simp [delF, getF]
  | cons kv rest ih =>
    obtain ⟨k0, v0⟩ := kv
    by_cases h0 : k0 = k <;> simp [delF, getF, h0, ih]

/-- Lowercase hex digit, as emitted by the JSON serializer in escapes. -/
def hexDig (n : Nat) : Char :=
  if n < 10 then Char.ofNat (48 + n) else Char.ofNat (87 + n)

/-- Escape of a single character inside a JSON string literal, modelling the
serialization the proxy performs with the standard json module: quote and
backslash get two-character escapes, control characters get a hex escape,
everything else is copied verbatim. -/
def escChar (c : Char) : Str :=
  if c = '"' then ['\\', '"']
  else if c = '\\' then ['\\', '\\']
  else if c.toNat < 32 then
    ['\\', 'u', '0', '0', hexDig (c.toNat / 16), hexDig (c.toNat % 16)]
  else [c]

/-- Escape of a whole JSON string body. -/
def escapeL : Str → Str
  | [] => []
  | c :: rest => escChar c ++ escapeL rest

mutual
/-- Serializer for `Jv`, modelling `json.dumps` with its default separators
(a comma-space between items, a colon-space after keys). -/
def printJL : Jv → Str
  | .null => "null".data
  | .bool true => "true".data
  | .bool false => "false".data
  | .num tok => tok
  | .str s => '"' :: escapeL s ++ ['"']
  | .arr xs => '[' :: printElems xs ++ [']']
  | .obj kvs => '\x7b' :: printFields kvs ++ ['\x7d']
/-- Serializer for the element list of a JSON array. -/
def printElems : List Jv → Str
  | [] => []
  | [x] => printJL x
  | x :: y :: rest => printJL x ++ ',' :: ' ' :: printElems (y :: rest)
/-- Serializer for the field list of a JSON object. -/
def printFields : List (Str × Jv) → Str
  | [] => []
  | [(k, v)] => '"' :: escapeL k ++ '"' :: ':' :: ' ' :: printJL v
  | (k, v) :: kv2 :: rest =>
    '"' :: escapeL k ++ '"' :: ':' :: ' ' :: printJL v ++ ',' :: ' ' :: printFields (kv2 :: rest)
end

example : printJL (.obj [("a".data, .arr [.num "1".data, .null])]) =
    "\x7b\"a\": [1, null]\x7d".data := rfl

/-- Hex digit value, as accepted in `\uXXXX` escapes. -/
def hexVal (c : Char) : Option Nat :=
  if '0' ≤ c ∧ c ≤ '9' then some (c.toNat - 48)
  else if 'a' ≤ c ∧ c ≤ 'f' then some (c.toNat - 87)
  else if 'A' ≤ c ∧ c ≤ 'F' then some (c.toNat - 55)
  else none

/-- Consume leading JSON whitespace. -/
def skipWs : Str → Str
  | [] => []
  | c :: rest => if isWs c then skipWs rest else c :: rest

/-- Characters that may continue a JSON number token. -/
def isNumChar (c : Char) : Bool :=
  c.isDigit || c = '.' || c = '-' || c = '+' || c = 'e' || c = 'E'

/-- Prefix the decoded character onto a string-body parse result. -/
def consStr (c : Char) (r : Option (Str × Str)) : Option (Str × Str) :=
  r.map fun p => (c :: p.1, p.2)

/-- Decoder for the body of a JSON string literal (after the opening quote),
up to and including the closing quote; returns the decoded characters and
the remaining input. -/
def parseStringBody : Str → Option (Str × Str)
  | [] => none
  | c :: rest =>
    if c = '"' then some ([], rest)
    else if c = '\\' then
      match rest with
      | [] => none
      | e :: rest2 =>
        if e = '"' then consStr '"' (parseStringBody rest2)
        else if e = '\\' then consStr '\\' (parseStringBody rest2)
        else if e = '/' then consStr '/' (parseStringBody rest2)
        else if e = 'n' then consStr '\n' (parseStringBody rest2)
        else if e = 't' then consStr '\t' (parseStringBody rest2)
        else if e = 'r' then consStr '\r' (parseStringBody rest2)
        else if e = 'b' then consStr '\x08' (parseStringBody rest2)
        else if e = 'f' then consStr '\x0c' (parseStringBody rest2)
        else if e = 'u' then
          match rest2 with
          | a :: b :: c2 :: d :: rest3 =>
            match hexVal a, hexVal b, hexVal c2, hexVal d with
            | some x1, some x2, some x3, some x4 =>
              let n := ((x1 * 16 + x2) * 16 + x3) * 16 + x4
              if _h : n.isValidChar then consStr (Char.ofNat n) (parseStringBody rest3)
              else none
            | _, _, _, _ => none
          | _ => none
        else none
    else consStr c (parseStringBody rest)

mutual
/-- Fuel-indexed JSON value decoder, modelling `json.loads`; each recursion
level consumes at least one character, so any fuel above the input length
is enough. -/
def parseVal : Nat → Str → Option (Jv × Str)
  | 0, _ => none
  | fuel + 1, l =>
    match skipWs l with
    | 'n' :: 'u' :: 'l' :: 'l' :: rest => some (.null, rest)
    | 't' :: 'r' :: 'u' :: 'e' :: rest => some (.bool true, rest)
    | 'f' :: 'a' :: 'l' :: 's' :: 'e' :: rest => some (.bool false, rest)
    | '"' :: rest =>
      match parseStringBody rest with
      | some (cs, r) => some (.str cs, r)
      | none => none
    | '[' :: rest =>
      match skipWs rest with
      | ']' :: r2 => some (.arr [], r2)
      | r2 => parseElems fuel r2 []
    | '\x7b' :: rest =>
      match skipWs rest with
      | '\x7d' :: r2 => some (.obj [], r2)
      | r2 => parseFields fuel r2 []
    | c :: rest =>
      if c = '-' || c.isDigit then
        some (.num (c :: rest.takeWhile isNumChar), rest.dropWhile isNumChar)
      else none
    | [] => none
/-- Decoder for the remaining elements of a non-empty JSON array. -/
def parseElems : Nat → Str → List Jv → Option (Jv × Str)
  | 0, _, _ => none
  | fuel + 1, l, acc =>
    match parseVal fuel l with
    | none => none
    | some (v, r) =>
      match skipWs r with
      | ',' :: r2 => parseElems fuel r2 (acc ++ [v])
      | ']' :: r2 => some (.arr (acc ++ [v]), r2)
      | _ => none
/-- Decoder for the remaining fields of a non-empty JSON object; bindings
land in the accumulator with Python dict insertion semantics. -/
def parseFields : Nat → Str → List (Str × Jv) → Option (Jv × Str)
  | 0, _, _ => none
  | fuel + 1, l, acc =>
    match skipWs l with
    | '"' :: rest =>
      match parseStringBody rest with
      | some (kcs, r1) =>
        match skipWs r1 with
        | ':' :: r2 =>
          match parseVal fuel r2 with
          | some (v, r3) =>
            match skipWs r3 with
            | ',' :: r4 => parseFields fuel r4 (setF acc kcs v)
            | '\x7d' :: r4 => some (.obj (setF acc kcs v), r4)
            | _ => none
          | none => none
        | _ => none
      | none => none
    | _ => none
end

/-- Model of `json.loads` on a whole document: decode one value and require
only whitespace after it. -/
def loadsL (cs : Str) : Option Jv :=
  match parseVal (cs.length + 1) cs with
  | some (v, rest) => if skipWs rest = [] then some v else none
  | none => none

example : loadsL " \x7b\"a\": [1, true], \"b\": \"x\\n\"\x7d ".data =
    some (.obj [("a".data, .arr [.num "1".data, .bool true]),
                ("b".data, .str "x\n".data)]) := rfl
example : loadsL "\x7b\"a\": 1, \"a\": 2\x7d".data =
    some (.obj [("a".data, .num "2".data)]) := rfl
example : loadsL "[1".data = none := rfl
example : loadsL "\"\\u00e9\"".data = some (.str "é".data) := rfl

theorem skipWs_cons_not (c : Char) (l : Str) (h : isWs c = false) : skipWs (c :: l) = c :: l := by
  simp [skipWs, h]

theorem skipWs_cons_ws (c : Char) (l : Str) (h : isWs c = true) : skipWs (c :: l) = skipWs l := by
  simp [skipWs, h]

theorem parseStringBody_cons (c : Char) (l : Str) (h1 : c ≠ '"') (h2 : c ≠ '\\') :
    parseStringBody (c :: l) = consStr c (parseStringBody l) := by
  rw [parseStringBody.eq_def]
  simp [h1, h2]

theorem hexVal_hexDig (m : Nat) (h : m < 16) : hexVal (hexDig m) = some m := by
  interval_cases m <;> rfl

theorem parseStringBody_escape (s rest : Str) :
    parseStringBody (escapeL s ++ '"' :: rest) = some (s, rest) := by
  induction s with
  | nil =>
    rw [parseStringBody.eq_def]
    simp [escapeL]
  | cons c cs ih =>
    have hstep : escapeL (c :: cs) ++ '"' :: rest = escChar c ++ (escapeL cs ++ '"' :: rest) := by
      simp [escapeL]
    rw [hstep]
    by_cases h1 : c = '"'
    · subst h1
      have he : escChar '"' = ['\\', '"'] := rfl
      rw [he]
      rw [parseStringBody.eq_def]
      simp [ih, consStr]
    · by_cases h2 : c = '\\'
      · subst h2
        have he : escChar '\\' = ['\\', '\\'] := rfl
        rw [he]
        rw [parseStringBody.eq_def]
        simp [ih, consStr]
      · by_cases h3 : c.toNat < 32
        · have he : escChar c =
              ['\\', 'u', '0', '0', hexDig (c.toNat / 16), hexDig (c.toNat % 16)] := by
            simp [escChar, h1, h2, h3]
          rw [he]
          rw [parseStringBody.eq_def]
          have hv1 : hexVal '0' = some 0 := rfl
          have hv2 : hexVal (hexDig (c.toNat / 16)) = some (c.toNat / 16) := by
            apply hexVal_hexDig
            omega
          have hv3 : hexVal (hexDig (c.toNat % 16)) = some (c.toNat % 16) := by
            apply hexVal_hexDig
            omega
          have hn : ((0 * 16 + 0) * 16 + c.toNat / 16) * 16 + c.toNat % 16 = c.toNat := by
            omega
          simp only [List.cons_append, List.nil_append]
          rw [hv1, hv2, hv3]
          simp only [hn]
          have hvalid : (c.toNat).isValidChar := Or.inl (by omega)
          simp [hvalid, ih, consStr, Char.ofNat_toNat]
        · have he : escChar c = [c] := by
            simp [escChar, h1, h2, h3]
          rw [he]
          simp only [List.singleton_append]
          rw [parseStringBody_cons c _ h1 h2]
          simp [ih, consStr]

mutual
/-- Structural size of a JSON value, used as a fuel bound for the decoder. -/
def sizeJ : Jv → Nat
  | .null => 1
  | .bool _ => 1
  | .num _ => 1
  | .str _ => 1
  | .arr xs => 1 + sizeL xs
  | .obj kvs => 1 + sizeF kvs
/-- Size of a JSON array element list. -/
def sizeL : List Jv → Nat
  | [] => 0
  | v :: rest => 1 + sizeJ v + sizeL rest
/-- Size of a JSON object field list. -/
def sizeF : List (Str × Jv) → Nat
  | [] => 0
  | kv :: rest => 1 + sizeJ kv.2 + sizeF rest
end

mutual
/-- Well-formedness of a JSON value: number tokens are genuine number
literals and object keys are distinct. Every decoder output is well formed,
and well-formed values round-trip through the serializer. -/
def wfJ : Jv → Bool
  | .null => true
  | .bool _ => true
  | .num tok =>
    match tok with
    | [] => false
    | c :: _ => (c = '-' || c.isDigit) && tok.all isNumChar
  | .str _ => true
  | .arr xs => wfL xs
  | .obj kvs => wfF kvs
/-- Well-formedness of an array element list. -/
def wfL : List Jv → Bool
  | [] => true
  | v :: rest => wfJ v && wfL rest
/-- Well-formedness of an object field list: keys distinct, values well
formed. -/
def wfF : List (Str × Jv) → Bool
  | [] => true
  | kv :: rest => !hasF rest kv.1 && wfJ kv.2 && wfF rest
end

theorem sizeJ_pos (v : Jv) : 1 ≤ sizeJ v := by
  cases v <;> simp [sizeJ]

theorem setF_eq_append (fs : List (Str × Jv)) (k : Str) (v : Jv) (h : hasF fs k = false) :
    setF fs k v = fs ++ [(k, v)] := by
  induction fs with
  | nil => simp [setF]
  | cons kv rest ih =>
    obtain ⟨k0, v0⟩ := kv
    rw [hasF] at h
    simp only [Bool.or_eq_false_iff, decide_eq_false_iff_not] at h
    simp [setF, h.1, ih h.2]

theorem hasF_append (fs gs : List (Str × Jv)) (k : Str) :
    hasF (fs ++ gs) k = (hasF fs k || hasF gs k) := by
  induction fs with
  | nil => simp [hasF]
  | cons kv rest ih =>
    obtain ⟨k0, v0⟩ := kv
    simp [hasF, ih, Bool.or_assoc]

theorem hasF_setF_ne (fs : List (Str × Jv)) (k k2 : Str) (v : Jv) (h : k2 ≠ k) :
    hasF (setF fs k v) k2 = hasF fs k2 := by
  induction fs with
  | nil => simp [setF, hasF, Ne.symm h]
  | cons kv rest ih =>
    obtain ⟨k0, v0⟩ := kv
    by_cases h0 : k0 = k <;> simp [setF, hasF, h0, ih]

theorem wfF_setF (fs : List (Str × Jv)) (k : Str) (v : Jv)
    (hf : wfF fs = true) (hv : wfJ v = true) : wfF (setF fs k v) = true := by
  induction fs with
  | nil => simp [setF, wfF, hasF, hv]
  | cons kv rest ih =>
    obtain ⟨k0, v0⟩ := kv
    rw [wfF.eq_def] at hf
    simp only [Bool.and_eq_true, Bool.not_eq_true'] at hf
    by_cases h0 : k0 = k
    · subst h0
      rw [setF]
      simp only [if_pos rfl]
      rw [wfF.eq_def]
      simp [hf.1.1, hf.2, hv]
    · rw [setF]
      simp only [if_neg h0]
      rw [wfF.eq_def]
      simp only [Bool.and_eq_true, Bool.not_eq_true']
      refine ⟨⟨?_, hf.1.2⟩, ih hf.2⟩
      rw [hasF_setF_ne rest k k0 v h0]
      exact hf.1.1

theorem takeWhile_append_all (p : Char → Bool) (l1 l2 : Str) (h : ∀ c ∈ l1, p c = true) :
    (l1 ++ l2).takeWhile p = l1 ++ l2.takeWhile p := by
  induction l1 with
  | nil => simp
  | cons c rest ih =>
    have hc : p c = true := h c (by simp)
    have hr : ∀ d ∈ rest, p d = true := fun d hd => h d (by simp [hd])
    simp [List.takeWhile_cons, hc, ih hr]

theorem dropWhile_append_all (p : Char → Bool) (l1 l2 : Str) (h : ∀ c ∈ l1, p c = true) :
    (l1 ++ l2).dropWhile p = l2.dropWhile p := by
  induction l1 with
  | nil => simp
  | cons c rest ih =>
    have hc : p c = true := h c (by simp)
    have hr : ∀ d ∈ rest, p d = true := fun d hd => h d (by simp [hd])
    simp [List.dropWhile_cons, hc, ih hr]

theorem digit_ne (c d : Char) (h : c.isDigit = true) (hd : d.isDigit = false) : c ≠ d := by
  intro he
  rw [he, hd] at h
  cases h

theorem numStart_facts (c : Char) (h : (c = '-' || c.isDigit) = true) :
    isWs c = false ∧ isNumChar c = true ∧ c ≠ ']' ∧ c ≠ '\x7d' ∧ c ≠ 'n' ∧ c ≠ 't' ∧
      c ≠ 'f' ∧ c ≠ '"' ∧ c ≠ '[' ∧ c ≠ '\x7b' := by
  rcases (by simpa using h : c = '-' ∨ c.isDigit = true) with h1 | h2
  · subst h1
    refine ⟨by decide, by decide, by decide, by decide, by decide, by decide, by decide,
      by decide, by decide, by decide⟩
  · have hws : isWs c = false := by
      have w1 : c ≠ ' ' := digit_ne c ' ' h2 (by decide)
      have w2 : c ≠ '\t' := digit_ne c '\t' h2 (by decide)
      have w3 : c ≠ '\n' := digit_ne c '\n' h2 (by decide)
      have w4 : c ≠ '\r' := digit_ne c '\r' h2 (by decide)
      have w5 : c ≠ '\x0b' := digit_ne c '\x0b' h2 (by decide)
      have w6 : c ≠ '\x0c' := digit_ne c '\x0c' h2 (by decide)
      simp [isWs, w1, w2, w3, w4, w5, w6]
    refine ⟨hws, by simp [isNumChar, h2], digit_ne c ']' h2 (by decide),
      digit_ne c '\x7d' h2 (by decide), digit_ne c 'n' h2 (by decide),
      digit_ne c 't' h2 (by decide), digit_ne c 'f' h2 (by decide),
      digit_ne c '"' h2 (by decide), digit_ne c '[' h2 (by decide),
      digit_ne c '\x7b' h2 (by decide)⟩

theorem parseVal_num_head (fuel : Nat) (c : Char) (l : Str)
    (h : (c = '-' || c.isDigit) = true) :
    parseVal (fuel + 1) (c :: l) =
      some (.num (c :: l.takeWhile isNumChar), l.dropWhile isNumChar) := by
  obtain ⟨hws, _, _, _, h5, h6, h7, h8, h9, h10⟩ := numStart_facts c h
  rw [parseVal]
  rw [skipWs_cons_not c l hws]
  split
  · rename_i heq
    rw [List.cons.injEq] at heq
    exact absurd heq.1 h5
  · rename_i heq
    rw [List.cons.injEq] at heq
    exact absurd heq.1 h6
  · rename_i heq
    rw [List.cons.injEq] at heq
    exact absurd heq.1 h7
  · rename_i heq
    rw [List.cons.injEq] at heq
    exact absurd heq.1 h8
  · rename_i heq
    rw [List.cons.injEq] at heq
    exact absurd heq.1 h9
  · rename_i heq
    rw [List.cons.injEq] at heq
    exact absurd heq.1 h10
  · rename_i heq
    rw [List.cons.injEq] at heq
    obtain ⟨hc, hl⟩ := heq
    subst hc
    subst hl
    simp [h]
  · rename_i heq
    cases heq

/-- Delimiter condition: the text after a printed value may not begin with a
number character (it never does in serializer output). -/
def numDelim : Str → Bool
  | [] => true
  | c :: _ => !isNumChar c

theorem takeWhile_of_numDelim (l : Str) (h : numDelim l = true) :
    l.takeWhile isNumChar = [] := by
  cases l with
  | nil => rfl
  | cons c t =>
    rw [numDelim] at h
    simp only [Bool.not_eq_true'] at h
    simp [List.takeWhile_cons, h]

theorem dropWhile_of_numDelim (l : Str) (h : numDelim l = true) :
    l.dropWhile isNumChar = l := by
  cases l with
  | nil => rfl
  | cons c t =>
    rw [numDelim] at h
    simp only [Bool.not_eq_true'] at h
    simp [List.dropWhile_cons, h]


theorem wfL_cons_eq (v : Jv) (rest : List Jv) : wfL (v :: rest) = (wfJ v && wfL rest) := rfl

theorem wfJ_arr_eq (xs : List Jv) : wfJ (.arr xs) = wfL xs := rfl

theorem wfJ_num_nil : wfJ (.num []) = false := rfl

theorem wfJ_num_eq (c : Char) (t : Str) :
    wfJ (.num (c :: t)) = ((c = '-' || c.isDigit) && (c :: t).all isNumChar) := rfl

theorem wfJ_obj_eq (kvs : List (Str × Jv)) : wfJ (.obj kvs) = wfF kvs := rfl

theorem wfF_cons_eq (kv : Str × Jv) (rest : List (Str × Jv)) :
    wfF (kv :: rest) = (!hasF rest kv.1 && wfJ kv.2 && wfF rest) := rfl

theorem sizeL_cons (v : Jv) (rest : List Jv) : sizeL (v :: rest) = 1 + sizeJ v + sizeL rest := rfl

theorem sizeF_cons (kv : Str × Jv) (rest : List (Str × Jv)) :
    sizeF (kv :: rest) = 1 + sizeJ kv.2 + sizeF rest := rfl

theorem sizeJ_arr (xs : List Jv) : sizeJ (.arr xs) = 1 + sizeL xs := rfl

theorem sizeJ_obj (kvs : List (Str × Jv)) : sizeJ (.obj kvs) = 1 + sizeF kvs := rfl

theorem printElems_one (x : Jv) : printElems [x] = printJL x := rfl

theorem printElems_cons2 (x y : Jv) (rest : List Jv) :
    printElems (x :: y :: rest) = printJL x ++ ',' :: ' ' :: printElems (y :: rest) := rfl

theorem printFields_one (k : Str) (xv : Jv) :
    printFields [(k, xv)] = '"' :: escapeL k ++ '"' :: ':' :: ' ' :: printJL xv := rfl

theorem printFields_cons2 (k : Str) (xv : Jv) (kv2 : Str × Jv) (rest : List (Str × Jv)) :
    printFields ((k, xv) :: kv2 :: rest) =
      '"' :: escapeL k ++ '"' :: ':' :: ' ' :: printJL xv ++ ',' :: ' ' :: printFields (kv2 :: rest) := rfl

theorem printJL_arr_eq (xs : List Jv) : printJL (.arr xs) = '[' :: printElems xs ++ [']'] := rfl

theorem printJL_obj_eq (kvs : List (Str × Jv)) :
    printJL (.obj kvs) = '\x7b' :: printFields kvs ++ ['\x7d'] := rfl

theorem printJL_head (v : Jv) (h : wfJ v = true) :
    ∃ c t, printJL v = c :: t ∧ isWs c = false ∧ c ≠ ']' ∧ c ≠ '\x7d' := by
  cases v with
  | null => exact ⟨'n', _, rfl, by decide, by decide, by decide⟩
  | bool b =>
    cases b
    · exact ⟨'f', _, rfl, by decide, by decide, by decide⟩
    · exact ⟨'t', _, rfl, by decide, by decide, by decide⟩
  | num tok =>
    cases tok with
    | nil =>
      rw [wfJ_num_nil] at h
      cases h
    | cons c t =>
      rw [wfJ_num_eq] at h
      simp only [Bool.and_eq_true] at h
      obtain ⟨hws, _, hne1, hne2, _⟩ := numStart_facts c h.1
      exact ⟨c, t, rfl, hws, hne1, hne2⟩
  | str s => exact ⟨'"', _, rfl, by decide, by decide, by decide⟩
  | arr xs => exact ⟨'[', _, rfl, by decide, by decide, by decide⟩
  | obj kvs => exact ⟨'\x7b', _, rfl, by decide, by decide, by decide⟩

theorem parseVal_cons_space (fuel : Nat) (l : Str) :
    parseVal fuel (' ' :: l) = parseVal fuel l := by
  cases fuel with
  | zero => rfl
  | succ f =>
    rw [parseVal, parseVal]
    rw [skipWs_cons_ws ' ' l (by decide)]

theorem parseElems_cons_space (fuel : Nat) (l : Str) (acc : List Jv) :
    parseElems fuel (' ' :: l) acc = parseElems fuel l acc := by
  cases fuel with
  | zero => rfl
  | succ f =>
    rw [parseElems, parseElems]
    rw [parseVal_cons_space f l]

theorem parseFields_cons_space (fuel : Nat) (l : Str) (acc : List (Str × Jv)) :
    parseFields fuel (' ' :: l) acc = parseFields fuel l acc := by
  cases fuel with
  | zero => rfl
  | succ f =>
    rw [parseFields, parseFields]
    rw [skipWs_cons_ws ' ' l (by decide)]

theorem not_hasF_mem (fs : List (Str × Jv)) (k : Str) (h : hasF fs k = false)
    (kv : Str × Jv) (hm : kv ∈ fs) : kv.1 = k → False := by
  induction fs with
  | nil => cases hm
  | cons kv0 rest ih =>
    rw [hasF] at h
    simp only [Bool.or_eq_false_iff, decide_eq_false_iff_not] at h
    rcases List.mem_cons.mp hm with he | hm2
    · intro hk
      subst he
      exact h.1 hk
    · exact ih h.2 hm2

theorem roundtrip_all (fuel : Nat) :
    (∀ v rest, wfJ v = true → sizeJ v ≤ fuel → numDelim rest = true →
      parseVal fuel (printJL v ++ rest) = some (v, rest)) ∧
    (∀ vs acc rest, vs ≠ [] → wfL vs = true → sizeL vs ≤ fuel →
      parseElems fuel (printElems vs ++ ']' :: rest) acc = some (.arr (acc ++ vs), rest)) ∧
    (∀ kvs acc rest, kvs ≠ [] → wfF kvs = true → sizeF kvs ≤ fuel →
      (∀ kv ∈ kvs, hasF acc kv.1 = false) →
      parseFields fuel (printFields kvs ++ '\x7d' :: rest) acc = some (.obj (acc ++ kvs), rest)) := by
  induction fuel with
  | zero =>
    refine ⟨?_, ?_, ?_⟩
    · intro v rest _ hsz _
      have := sizeJ_pos v
      omega
    · intro vs acc rest hne _ hsz
      cases vs with
      | nil => exact absurd rfl hne
      | cons v r =>
        rw [sizeL_cons] at hsz
        have := sizeJ_pos v
        omega
    · intro kvs acc rest hne _ hsz _
      cases kvs with
      | nil => exact absurd rfl hne
      | cons kv r =>
        rw [sizeF_cons] at hsz
        have := sizeJ_pos kv.2
        omega
  | succ fuel ih =>
    obtain ⟨ihP, ihQ, ihR⟩ := ih
    refine ⟨?_, ?_, ?_⟩
    · intro v rest hwf hsz hnd
      cases v with
      | null =>
        rw [parseVal]
        rw [show printJL Jv.null ++ rest = 'n' :: 'u' :: 'l' :: 'l' :: rest from rfl]
        rw [skipWs_cons_not 'n' _ (by decide)]
        rfl
      | bool b =>
        cases b
        · rw [parseVal]
          rw [show printJL (Jv.bool false) ++ rest = 'f' :: 'a' :: 'l' :: 's' :: 'e' :: rest from rfl]
          rw [skipWs_cons_not 'f' _ (by decide)]
          rfl
        · rw [parseVal]
          rw [show printJL (Jv.bool true) ++ rest = 't' :: 'r' :: 'u' :: 'e' :: rest from rfl]
          rw [skipWs_cons_not 't' _ (by decide)]
          rfl
      | num tok =>
        cases tok with
        | nil =>
          rw [wfJ_num_nil] at hwf
          cases hwf
        | cons c t =>
          rw [wfJ_num_eq] at hwf
          simp only [Bool.and_eq_true] at hwf
          rw [show printJL (Jv.num (c :: t)) ++ rest = c :: (t ++ rest) from rfl]
          rw [parseVal_num_head fuel c (t ++ rest) hwf.1]
          have hall : ∀ d ∈ t, isNumChar d = true := by
            intro d hd
            have h2 := hwf.2
            rw [List.all_eq_true] at h2
            exact h2 d (by simp [hd])
          rw [takeWhile_append_all isNumChar t rest hall]
          rw [dropWhile_append_all isNumChar t rest hall]
          rw [takeWhile_of_numDelim rest hnd, dropWhile_of_numDelim rest hnd]
          simp
      | str s =>
        rw [show printJL (Jv.str s) ++ rest = '"' :: (escapeL s ++ '"' :: rest) by
          rw [printJL]
          simp]
        rw [parseVal]
        rw [skipWs_cons_not '"' _ (by decide)]
        simp only [parseStringBody_escape s rest]
      | arr xs =>
        cases xs with
        | nil =>
          rw [show printJL (Jv.arr []) ++ rest = '[' :: ']' :: rest from rfl]
          rw [parseVal]
          rw [skipWs_cons_not '[' _ (by decide)]
          rfl
        | cons x xs2 =>
          rw [wfJ_arr_eq] at hwf
          have hwx : wfJ x = true := by
            rw [wfL_cons_eq] at hwf
            exact (Bool.and_eq_true _ _ |>.mp hwf).1
          obtain ⟨c, t, hct, hws, hne1, _⟩ := printJL_head x hwx
          have hdec : ∃ s0, printElems (x :: xs2) = c :: (t ++ s0) := by
            cases xs2 with
            | nil =>
              refine ⟨[], ?_⟩
              rw [printElems_one, hct]
              simp
            | cons y r =>
              refine ⟨',' :: ' ' :: printElems (y :: r), ?_⟩
              rw [printElems_cons2, hct]
              simp
          obtain ⟨s0, hs0⟩ := hdec
          rw [show printJL (Jv.arr (x :: xs2)) ++ rest =
              '[' :: (printElems (x :: xs2) ++ ']' :: rest) by
            rw [printJL_arr_eq]
            simp]
          rw [parseVal]
          rw [skipWs_cons_not '[' _ (by decide)]
          rw [show printElems (x :: xs2) ++ ']' :: rest = c :: (t ++ s0 ++ ']' :: rest) by
            rw [hs0]
            simp]
          simp only [skipWs_cons_not c (t ++ s0 ++ ']' :: rest) hws]
          split
          · rename_i heq
            rw [List.cons.injEq] at heq
            exact absurd heq.1 hne1
          · rw [show c :: (t ++ s0 ++ ']' :: rest) = printElems (x :: xs2) ++ ']' :: rest by
              rw [hs0]
              simp]
            have hq := ihQ (x :: xs2) [] rest (by simp) hwf (by
              rw [sizeJ_arr] at hsz
              omega)
            rw [hq]
            simp
      | obj kvs =>
        cases kvs with
        | nil =>
          rw [show printJL (Jv.obj []) ++ rest = '\x7b' :: '\x7d' :: rest from rfl]
          rw [parseVal]
          rw [skipWs_cons_not '\x7b' _ (by decide)]
          rfl
        | cons kv kvs2 =>
          rw [wfJ_obj_eq] at hwf
          rw [show printJL (Jv.obj (kv :: kvs2)) ++ rest =
              '\x7b' :: (printFields (kv :: kvs2) ++ '\x7d' :: rest) by
            rw [printJL_obj_eq]
            simp]
          rw [parseVal]
          rw [skipWs_cons_not '\x7b' _ (by decide)]
          have hdec : ∃ s1, printFields (kv :: kvs2) ++ '\x7d' :: rest = '"' :: s1 := by
            obtain ⟨k, xv⟩ := kv
            cases kvs2 with
            | nil =>
              refine ⟨escapeL k ++ '"' :: ':' :: ' ' :: printJL xv ++ '\x7d' :: rest, ?_⟩
              rw [printFields_one]
              simp
            | cons kv2 r =>
              refine ⟨escapeL k ++ '"' :: ':' :: ' ' :: printJL xv ++ ',' :: ' ' ::
                printFields (kv2 :: r) ++ '\x7d' :: rest, ?_⟩
              rw [printFields_cons2]
              simp
          obtain ⟨s1, hs1⟩ := hdec
          rw [hs1]
          simp only [skipWs_cons_not '"' s1 (by decide)]
          split
          · rename_i heq
            cases heq
          · rw [← hs1]
            have hr := ihR (kv :: kvs2) [] rest (by simp) hwf (by
              rw [sizeJ_obj] at hsz
              omega) (by
              intro kv2 _
              rfl)
            rw [hr]
            simp
    · intro vs acc rest hne hwf hsz
      cases vs with
      | nil => exact absurd rfl hne
      | cons v vs2 =>
        rw [wfL_cons_eq] at hwf
        simp only [Bool.and_eq_true] at hwf
        rw [sizeL_cons] at hsz
        cases vs2 with
        | nil =>
          rw [printElems_one]
          rw [parseElems]
          rw [ihP v (']' :: rest) hwf.1 (by omega) rfl]
          rfl
        | cons w vs3 =>
          rw [show printElems (v :: w :: vs3) ++ ']' :: rest =
              printJL v ++ (',' :: ' ' :: (printElems (w :: vs3) ++ ']' :: rest)) by
            rw [printElems_cons2]
            simp]
          rw [parseElems]
          simp only [ihP v (',' :: ' ' :: (printElems (w :: vs3) ++ ']' :: rest)) hwf.1
            (by omega) rfl]
          simp only [skipWs_cons_not ',' (' ' :: (printElems (w :: vs3) ++ ']' :: rest)) (by decide)]
          simp only [parseElems_cons_space fuel (printElems (w :: vs3) ++ ']' :: rest) (acc ++ [v])]
          rw [ihQ (w :: vs3) (acc ++ [v]) rest (by simp) hwf.2 (by omega)]
          simp
    · intro kvs acc rest hne hwf hsz hdisj
      cases kvs with
      | nil => exact absurd rfl hne
      | cons kv kvs2 =>
        obtain ⟨k, xv⟩ := kv
        rw [wfF_cons_eq] at hwf
        simp only [Bool.and_eq_true, Bool.not_eq_true'] at hwf
        rw [sizeF_cons] at hsz
        have hkacc : hasF acc k = false := hdisj (k, xv) (by simp)
        cases kvs2 with
        | nil =>
          rw [show printFields [(k, xv)] ++ '\x7d' :: rest =
              '"' :: (escapeL k ++ '"' :: (':' :: ' ' :: (printJL xv ++ '\x7d' :: rest))) by
            rw [printFields_one]
            simp]
          rw [parseFields]
          rw [skipWs_cons_not '"' _ (by decide)]
          simp only [parseStringBody_escape k (':' :: ' ' :: (printJL xv ++ '\x7d' :: rest))]
          simp only [skipWs_cons_not ':' (' ' :: (printJL xv ++ '\x7d' :: rest)) (by decide)]
          simp only [parseVal_cons_space fuel (printJL xv ++ '\x7d' :: rest)]
          simp only [ihP xv ('\x7d' :: rest) hwf.1.2 (by simp at hsz; omega) rfl]
          simp only [skipWs_cons_not '\x7d' rest (by decide)]
          rw [setF_eq_append acc k xv hkacc]
        | cons kv2 kvs3 =>
          rw [show printFields ((k, xv) :: kv2 :: kvs3) ++ '\x7d' :: rest =
              '"' :: (escapeL k ++ '"' :: (':' :: ' ' ::
                (printJL xv ++ ',' :: ' ' :: (printFields (kv2 :: kvs3) ++ '\x7d' :: rest)))) by
            rw [printFields_cons2]
            simp]
          rw [parseFields]
          rw [skipWs_cons_not '"' _ (by decide)]
          simp only [parseStringBody_escape k (':' :: ' ' ::
            (printJL xv ++ ',' :: ' ' :: (printFields (kv2 :: kvs3) ++ '\x7d' :: rest)))]
          simp only [skipWs_cons_not ':' (' ' ::
            (printJL xv ++ ',' :: ' ' :: (printFields (kv2 :: kvs3) ++ '\x7d' :: rest))) (by decide)]
          simp only [parseVal_cons_space fuel
            (printJL xv ++ ',' :: ' ' :: (printFields (kv2 :: kvs3) ++ '\x7d' :: rest))]
          simp only [ihP xv (',' :: ' ' :: (printFields (kv2 :: kvs3) ++ '\x7d' :: rest)) hwf.1.2
            (by simp at hsz; omega) rfl]
          simp only [skipWs_cons_not ','
            (' ' :: (printFields (kv2 :: kvs3) ++ '\x7d' :: rest)) (by decide)]
          simp only [parseFields_cons_space fuel
            (printFields (kv2 :: kvs3) ++ '\x7d' :: rest) (setF acc k xv)]
          rw [setF_eq_append acc k xv hkacc]
          have hdisj2 : ∀ kv3 ∈ kv2 :: kvs3, hasF (acc ++ [(k, xv)]) kv3.1 = false := by
            intro kv3 hm
            rw [hasF_append]
            have h1 : hasF acc kv3.1 = false := hdisj kv3 (by simp [hm])
            have h2 : kv3.1 ≠ k := fun he => not_hasF_mem (kv2 :: kvs3) k hwf.1.1 kv3 hm he
            simp [hasF, h1, Ne.symm h2]
          rw [ihR (kv2 :: kvs3) (acc ++ [(k, xv)]) rest (by simp) hwf.2
            (by simp at hsz; omega) hdisj2]
          simp

theorem printJL_arr_len (xs : List Jv) :
    (printJL (.arr xs)).length = (printElems xs).length + 2 := by
  rw [printJL_arr_eq]
  simp

theorem printJL_obj_len (kvs : List (Str × Jv)) :
    (printJL (.obj kvs)).length = (printFields kvs).length + 2 := by
  rw [printJL_obj_eq]
  simp

theorem size_le_print_all (n : Nat) :
    (∀ v, sizeJ v ≤ n → sizeJ v ≤ (printJL v).length + 1) ∧
    (∀ vs, sizeL vs ≤ n → sizeL vs ≤ (printElems vs).length + 2) ∧
    (∀ kvs, sizeF kvs ≤ n → sizeF kvs ≤ (printFields kvs).length + 2) := by
  induction n with
  | zero =>
    refine ⟨?_, ?_, ?_⟩
    · intro v hsz
      have := sizeJ_pos v
      omega
    · intro vs hsz
      cases vs with
      | nil => simp [sizeL]
      | cons v r =>
        rw [sizeL_cons] at hsz
        have := sizeJ_pos v
        omega
    · intro kvs hsz
      cases kvs with
      | nil => simp [sizeF]
      | cons kv r =>
        rw [sizeF_cons] at hsz
        have := sizeJ_pos kv.2
        omega
  | succ n ih =>
    obtain ⟨ihP, ihQ, ihR⟩ := ih
    refine ⟨?_, ?_, ?_⟩
    · intro v hsz
      cases v with
      | null => simp [sizeJ]
      | bool b => cases b <;> simp [sizeJ]
      | num tok => simp [sizeJ]
      | str s => simp [sizeJ]
      | arr xs =>
        rw [sizeJ_arr] at hsz ⊢
        rw [printJL_arr_len]
        have := ihQ xs (by omega)
        omega
      | obj kvs =>
        rw [sizeJ_obj] at hsz ⊢
        rw [printJL_obj_len]
        have := ihR kvs (by omega)
        omega
    · intro vs hsz
      cases vs with
      | nil => simp [sizeL]
      | cons v vs2 =>
        rw [sizeL_cons] at hsz ⊢
        have hv := ihP v (by omega)
        cases vs2 with
        | nil =>
          rw [printElems_one]
          rw [show sizeL ([] : List Jv) = 0 from rfl]
          omega
        | cons w vs3 =>
          rw [printElems_cons2]
          have hw := ihQ (w :: vs3) (by omega)
          simp only [List.length_append, List.length_cons]
          omega
    · intro kvs hsz
      cases kvs with
      | nil => simp [sizeF]
      | cons kv kvs2 =>
        obtain ⟨k, xv⟩ := kv
        rw [sizeF_cons] at hsz ⊢
        have hv := ihP xv (by simp at hsz ⊢; omega)
        cases kvs2 with
        | nil =>
          rw [printFields_one]
          rw [show sizeF ([] : List (Str × Jv)) = 0 from rfl]
          simp only [List.length_cons, List.length_append]
          simp at hv ⊢
          omega
        | cons kv2 kvs3 =>
          rw [printFields_cons2]
          have hw := ihR (kv2 :: kvs3) (by simp at hsz ⊢; omega)
          simp only [List.length_append, List.length_cons]
          simp at hv ⊢
          omega

theorem loadsL_printJL (v : Jv) (h : wfJ v = true) : loadsL (printJL v) = some v := by
  unfold loadsL
  have hsz : sizeJ v ≤ (printJL v).length + 1 :=
    (size_le_print_all (sizeJ v)).1 v le_rfl
  have hrt := (roundtrip_all ((printJL v).length + 1)).1 v [] h hsz rfl
  rw [List.append_nil] at hrt
  rw [hrt]
  rfl

theorem wfL_append (a b : List Jv) : wfL (a ++ b) = (wfL a && wfL b) := by
  induction a with
  | nil => simp [wfL]
  | cons v rest ih => simp [wfL_cons_eq, ih, Bool.and_assoc]

theorem all_takeWhile_self (p : Char → Bool) (l : Str) : (l.takeWhile p).all p = true := by
  induction l with
  | nil => simp
  | cons c rest ih =>
    rw [List.takeWhile_cons]
    by_cases h : p c
    · simp [h, ih]
    · simp [h]

theorem parse_wf_all (fuel : Nat) :
    (∀ l v r, parseVal fuel l = some (v, r) → wfJ v = true) ∧
    (∀ l acc v r, parseElems fuel l acc = some (v, r) → wfL acc = true → wfJ v = true) ∧
    (∀ l acc v r, parseFields fuel l acc = some (v, r) → wfF acc = true → wfJ v = true) := by
  induction fuel with
  | zero =>
    refine ⟨?_, ?_, ?_⟩
    · intro l v r h
      cases h
    · intro l acc v r h
      cases h
    · intro l acc v r h
      cases h
  | succ fuel ih =>
    obtain ⟨ihP, ihQ, ihR⟩ := ih
    refine ⟨?_, ?_, ?_⟩
    · intro l v r h
      rw [parseVal] at h
      split at h
      · cases h
        rfl
      · cases h
        rfl
      · cases h
        rfl
      · split at h
        · cases h
          rfl
        · cases h
      · split at h
        · cases h
          rfl
        · exact ihQ _ _ _ _ h rfl
      · split at h
        · cases h
          rfl
        · exact ihR _ _ _ _ h rfl
      · split at h
        · cases h
          rename_i cx restx h1 h2 h3 h4 h5 h6 heq hguard
          rw [wfJ_num_eq]
          obtain ⟨_, hnum, _⟩ := numStart_facts cx hguard
          simp only [Bool.and_eq_true]
          refine ⟨hguard, ?_⟩
          rw [List.all_cons]
          simp only [Bool.and_eq_true]
          exact ⟨hnum, all_takeWhile_self isNumChar restx⟩
        · cases h
      · cases h
    · intro l acc v r h hacc
      rw [parseElems] at h
      split at h
      · cases h
      · rename_i v0 r0 _
        have hv0 := ihP _ _ _ (by assumption)
        split at h
        · refine ihQ _ _ _ _ h ?_
          rw [wfL_append]
          simp [hacc, wfL_cons_eq, hv0, wfL]
        · cases h
          rw [wfJ_arr_eq, wfL_append]
          simp [hacc, wfL_cons_eq, hv0, wfL]
        · cases h
    · intro l acc v r h hacc
      rw [parseFields] at h
      split at h
      · split at h
        · rename_i kcs r1 _
          split at h
          · split at h
            · rename_i v0 r3 _
              have hv0 := ihP _ _ _ (by assumption)
              split at h
              · refine ihR _ _ _ _ h ?_
                exact wfF_setF acc kcs v0 hacc hv0
              · cases h
                rw [wfJ_obj_eq]
                exact wfF_setF acc kcs v0 hacc hv0
              · cases h
            · cases h
          · cases h
        · cases h
      · cases h

theorem hexDig_ne_nl (m : Nat) (h : m < 16) : hexDig m ≠ '\n' := by
  interval_cases m <;> decide

theorem escChar_no_nl (c : Char) : '\n' ∉ escChar c := by
  unfold escChar
  by_cases h1 : c = '"'
  · simp [h1]
  · by_cases h2 : c = '\\'
    · simp [h2]
    · by_cases h3 : c.toNat < 32
      · simp only [if_neg h1, if_neg h2, if_pos h3, List.mem_cons, List.mem_singleton]
        rintro (he | he | he | he | he | he | he)
        · cases he
        · cases he
        · cases he
        · cases he
        · exact hexDig_ne_nl (c.toNat / 16) (by omega) he.symm
        · exact hexDig_ne_nl (c.toNat % 16) (by omega) he.symm
        · cases he
      · simp only [if_neg h1, if_neg h2, if_neg h3, List.mem_singleton]
        intro he
        rw [← he] at h3
        exact h3 (by decide)

theorem escapeL_no_nl (s : Str) : '\n' ∉ escapeL s := by
  induction s with
  | nil => simp [escapeL]
  | cons c rest ih =>
    rw [escapeL]
    rw [List.mem_append]
    rintro (he | he)
    · exact escChar_no_nl c he
    · exact ih he

theorem print_no_nl_all (n : Nat) :
    (∀ v, sizeJ v ≤ n → wfJ v = true → '\n' ∉ printJL v) ∧
    (∀ vs, sizeL vs ≤ n → wfL vs = true → '\n' ∉ printElems vs) ∧
    (∀ kvs, sizeF kvs ≤ n → wfF kvs = true → '\n' ∉ printFields kvs) := by
  induction n with
  | zero =>
    refine ⟨?_, ?_, ?_⟩
    · intro v hsz
      have := sizeJ_pos v
      omega
    · intro vs hsz _
      cases vs with
      | nil => simp [printElems]
      | cons v r =>
        rw [sizeL_cons] at hsz
        have := sizeJ_pos v
        omega
    · intro kvs hsz _
      cases kvs with
      | nil => simp [printFields]
      | cons kv r =>
        rw [sizeF_cons] at hsz
        have := sizeJ_pos kv.2
        omega
  | succ n ih =>
    obtain ⟨ihP, ihQ, ihR⟩ := ih
    refine ⟨?_, ?_, ?_⟩
    · intro v hsz hwf
      cases v with
      | null => decide
      | bool b => cases b <;> decide
      | num tok =>
        intro hmem
        cases tok with
        | nil =>
          rw [wfJ_num_nil] at hwf
          cases hwf
        | cons c t =>
          rw [wfJ_num_eq] at hwf
          simp only [Bool.and_eq_true] at hwf
          have hall := hwf.2
          rw [List.all_eq_true] at hall
          have := hall '\n' hmem
          cases this
      | str s =>
        rw [show printJL (Jv.str s) = '"' :: (escapeL s ++ ['"']) from rfl]
        rw [List.mem_cons]
        rintro (he | he)
        · cases he
        · rw [List.mem_append] at he
          rcases he with he | he
          · exact escapeL_no_nl s he
          · simp at he
      | arr xs =>
        rw [wfJ_arr_eq] at hwf
        rw [sizeJ_arr] at hsz
        rw [show printJL (Jv.arr xs) = '[' :: (printElems xs ++ [']']) by
          rw [printJL_arr_eq]
          simp]
        rw [List.mem_cons]
        rintro (he | he)
        · cases he
        · rw [List.mem_append] at he
          rcases he with he | he
          · exact ihQ xs (by omega) hwf he
          · simp at he
      | obj kvs =>
        rw [wfJ_obj_eq] at hwf
        rw [sizeJ_obj] at hsz
        rw [show printJL (Jv.obj kvs) = '\x7b' :: (printFields kvs ++ ['\x7d']) by
          rw [printJL_obj_eq]
          simp]
        rw [List.mem_cons]
        rintro (he | he)
        · cases he
        · rw [List.mem_append] at he
          rcases he with he | he
          · exact ihR kvs (by omega) hwf he
          · simp at he
    · intro vs hsz hwf
      cases vs with
      | nil => simp [printElems]
      | cons v vs2 =>
        rw [sizeL_cons] at hsz
        rw [wfL_cons_eq] at hwf
        simp only [Bool.and_eq_true] at hwf
        cases vs2 with
        | nil =>
          rw [printElems_one]
          exact ihP v (by omega) hwf.1
        | cons w vs3 =>
          rw [printElems_cons2]
          rw [List.mem_append]
          rintro (he | he)
          · exact ihP v (by omega) hwf.1 he
          · rw [List.mem_cons] at he
            rcases he with he | he
            · cases he
            · rw [List.mem_cons] at he
              rcases he with he | he
              · cases he
              · exact ihQ (w :: vs3) (by omega) hwf.2 he
    · intro kvs hsz hwf
      cases kvs with
      | nil => simp [printFields]
      | cons kv kvs2 =>
        obtain ⟨k, xv⟩ := kv
        rw [sizeF_cons] at hsz
        rw [wfF_cons_eq] at hwf
        simp only [Bool.and_eq_true] at hwf
        simp only at hsz
        cases kvs2 with
        | nil =>
          rw [printFields_one]
          simp only [List.cons_append, List.append_assoc]
          rw [List.mem_cons]
          rintro (he | he)
          · cases he
          · rw [List.mem_append] at he
            rcases he with he | he
            · exact escapeL_no_nl k he
            · rw [List.mem_cons] at he
              rcases he with he | he
              · cases he
              · rw [List.mem_cons] at he
                rcases he with he | he
                · cases he
                · rw [List.mem_cons] at he
                  rcases he with he | he
                  · cases he
                  · exact ihP xv (by omega) hwf.1.2 he
        | cons kv2 kvs3 =>
          rw [printFields_cons2]
          simp only [List.cons_append, List.append_assoc]
          rw [List.mem_cons]
          rintro (he | he)
          · cases he
          · rw [List.mem_append] at he
            rcases he with he | he
            · exact escapeL_no_nl k he
            · rw [List.mem_cons] at he
              rcases he with he | he
              · cases he
              · rw [List.mem_cons] at he
                rcases he with he | he
                · cases he
                · rw [List.mem_cons] at he
                  rcases he with he | he
                  · cases he
                  · rw [List.mem_append] at he
                    rcases he with he | he
                    · exact ihP xv (by omega) hwf.1.2 he
                    · rw [List.mem_cons] at he
                      rcases he with he | he
                      · cases he
                      · rw [List.mem_cons] at he
                        rcases he with he | he
                        · cases he
                        · exact ihR (kv2 :: kvs3) (by omega) hwf.2 he

theorem printJL_no_nl (v : Jv) (h : wfJ v = true) : '\n' ∉ printJL v :=
  (print_no_nl_all (sizeJ v)).1 v le_rfl h

theorem splitOnChar_ne_nil (sep : Char) (l : Str) : splitOnChar sep l ≠ [] := by
  cases l with
  | nil => simp [splitOnChar]
  | cons c rest =>
    rw [splitOnChar]
    by_cases h : c = sep
    · simp [h]
    · simp only [if_neg h]
      split
    
      · simp
      · simp

theorem mem_splitOnChar_not_sep (sep : Char) (l : Str) (p : Str)
    (hp : p ∈ splitOnChar sep l) : sep ∉ p := by
  induction l generalizing p with
  | nil =>
    rw [splitOnChar] at hp
    simp at hp
    subst hp
    simp
  | cons c rest ih =>
    rw [splitOnChar] at hp
    by_cases h : c = sep
    · rw [if_pos h] at hp
      rcases List.mem_cons.mp hp with he | hm
      · subst he
        simp
      · exact ih p hm
    · rw [if_neg h] at hp
      split at hp
      · rename_i heq
        exact absurd heq (splitOnChar_ne_nil sep rest)
      · rename_i piece pieces heq
        rcases List.mem_cons.mp hp with he | hm
        · subst he
          intro hmem
          rcases List.mem_cons.mp hmem with he2 | hm2
          · exact h he2.symm
          · have : piece ∈ splitOnChar sep rest := by
              rw [heq]
              simp
            exact ih piece this hm2
        · exact ih p (by rw [heq]; simp [hm])

theorem splitOnChar_no_sep (sep : Char) (l : Str) (h : sep ∉ l) :
    splitOnChar sep l = [l] := by
  induction l with
  | nil => rfl
  | cons c rest ih =>
    rw [splitOnChar]
    have hcs : ¬c = sep := fun he => h (by simp [he])
    rw [if_neg hcs]
    rw [ih (fun hm => h (by simp [hm]))]

theorem splitOnChar_append_sep (sep : Char) (l t : Str) (h : sep ∉ l) :
    splitOnChar sep (l ++ sep :: t) = l :: splitOnChar sep t := by
  induction l with
  | nil => simp [splitOnChar]
  | cons c rest ih =>
    have hcs : ¬c = sep := fun he => h (by simp [he])
    rw [List.cons_append, splitOnChar, if_neg hcs]
    rw [ih (fun hm => h (by simp [hm]))]

theorem split_join (sep : Char) (ls : List Str) (hne : ls ≠ [])
    (h : ∀ l ∈ ls, sep ∉ l) :
    splitOnChar sep (joinWith [sep] ls) = ls := by
  induction ls with
  | nil => exact absurd rfl hne
  | cons l ls2 ih =>
    cases ls2 with
    | nil =>
      rw [joinWith]
      exact splitOnChar_no_sep sep l (h l (by simp))
    | cons l2 ls3 =>
      rw [joinWith]
      rw [show l ++ [sep] ++ joinWith [sep] (l2 :: ls3) =
          l ++ sep :: joinWith [sep] (l2 :: ls3) by simp]
      rw [splitOnChar_append_sep sep l _ (h l (by simp))]
      rw [ih (by simp) (fun p hp => h p (by simp [hp]))]
      simp

/-- Generic effectful map over a list in the Option monad; `none` when any
element fails (models a Python loop that can raise). -/
def omap (f : α → Option β) : List α → Option (List β)
  | [] => some []
  | x :: rest =>
    match f x, omap f rest with
    | some y, some ys => some (y :: ys)
    | _, _ => none

/-- Model of `is_reasoning_model` (`server/core/sanitize.py`): reasoning
features are supported unless the provider is antigravity or custom, and
only when the model name contains one of four version substrings. -/
def is_reasoning_model (model provider_type : Str) : Bool :=
  if provider_type = "antigravity".data ∨ provider_type = "custom".data then false
  else
    ["sonnet-3-7", "sonnet-4-5", "claude-3-7", "opus-4-5"].any
      fun m => containsL (asciiLower model) m.data

/-- Model of `filter_beta_header` (`server/core/sanitize.py`): split the
header on commas, strip each part, drop reasoning-related parts for
non-reasoning targets, and rejoin. -/
def filter_beta_header (beta_header model provider_type : Str) : Str :=
  if beta_header = [] then []
  else
    let beta_parts := (splitOnChar ',' beta_header).map trimL
    let beta_parts2 :=
      if !is_reasoning_model model provider_type then
        beta_parts.filter fun part =>
          !containsL (asciiLower part) "thinking".data &&
            !containsL (asciiLower part) "effort".data
      else beta_parts
    joinWith ",".data beta_parts2

example : filter_beta_header "interleaved-thinking-2025-05-14,computer-use-2025-01-24".data
    "gemini-3-flash".data "antigravity".data = "computer-use-2025-01-24".data := rfl

/-- Model of the tool-input coercion shared by
`_sanitize_for_custom_provider` and `_fix_tool_input`: strip the string,
parse it as JSON, and keep the result only when it is an object. -/
def parse_tool_input (s : Str) : Jv :=
  let raw := trimL s
  if raw = [] then .obj []
  else
    match loadsL raw with
    | some (.obj fields) => .obj fields
    | some _ => .obj []
    | none => .obj []

/-- Top-level whitelist of `_sanitize_for_custom_provider`. -/
def ALLOWED_TOP_KEYS : List Str :=
  ["model", "messages", "system", "tools", "tool_choice", "max_tokens", "stream",
    "temperature", "top_p", "top_k", "stop_sequences"].map String.data

/-- Model of the in-place key deletion loops: keep only whitelisted keys. -/
def keep_allowed_keys (fields : List (Str × Jv)) (allowed : List Str) : List (Str × Jv) :=
  fields.filter fun kv => allowed.contains kv.1

/-- Test used for the `btype == name` comparisons on `block.get('type')`. -/
def typeIs (btype : Option Jv) (name : Str) : Bool :=
  match btype with
  | some (.str t) => t = name
  | _ => false

/-- Per-type whitelist `ALLOWED_BLOCK_KEYS.get(btype, singleton type)`. -/
def block_allowed_keys (btype : Option Jv) : List Str :=
  match btype with
  | some (.str t) =>
    if t = "text".data then ["type", "text"].map String.data
    else if t = "tool_use".data then ["type", "id", "name", "input"].map String.data
    else if t = "tool_result".data then
      ["type", "tool_use_id", "content", "is_error"].map String.data
    else if t = "image".data then ["type", "source"].map String.data
    else ["type".data]
  | _ => ["type".data]

/-- Sanitization of one nested block inside a `tool_result.content` list;
non-dict entries are left alone. -/
def sanitize_sub_block (sub : Jv) : Jv :=
  match sub with
  | .obj sf => .obj (keep_allowed_keys sf (block_allowed_keys (getF sf "type".data)))
  | v => v

/-- Sanitization of one message content block (`none` models the
`AttributeError` on a non-dict block). -/
def sanitize_block (b : Jv) : Option Jv :=
  match b with
  | .obj bf =>
    let btype := getF bf "type".data
    let bf1 := keep_allowed_keys bf (block_allowed_keys btype)
    let bf2 :=
      if typeIs btype "tool_use".data then
        match getF bf1 "input".data with
        | some (.str s) => setF bf1 "input".data (parse_tool_input s)
        | _ => bf1
      else bf1
    if typeIs btype "tool_result".data then
      match getF bf2 "content".data with
      | some (.arr subs) =>
        some (.obj (setF bf2 "content".data (.arr (subs.map sanitize_sub_block))))
      | _ => some (.obj bf2)
    else some (.obj bf2)
  | _ => none

/-- Sanitization of one message. -/
def sanitize_message (m : Jv) : Option Jv :=
  match m with
  | .obj mf =>
    let mf1 := keep_allowed_keys mf (["role", "content"].map String.data)
    match getF mf1 "content".data with
    | some (.arr blocks) =>
      match omap sanitize_block blocks with
      | some bs => some (.obj (setF mf1 "content".data (.arr bs)))
      | none => none
    | _ => some (.obj mf1)
  | _ => none

/-- Sanitization of one `system` block. -/
def sanitize_system_block (b : Jv) : Option Jv :=
  match b with
  | .obj bf => some (.obj (keep_allowed_keys bf (["type", "text"].map String.data)))
  | _ => none

/-- Sanitization of one tool definition. -/
def sanitize_tool (t : Jv) : Option Jv :=
  match t with
  | .obj tf =>
    some (.obj (keep_allowed_keys tf
      (["name", "description", "input_schema", "type"].map String.data)))
  | _ => none

/-- One `if isinstance(body_json.get(k), list): for x in body_json[k]: ...`
paragraph of `_sanitize_for_custom_provider`: when the field holds a list,
sanitize each entry in place (`none` when an entry makes the loop raise);
otherwise leave the dict untouched. -/
def sanitize_list_field (f : Jv → Option Jv) (k : Str) (fs : List (Str × Jv)) :
    Option (List (Str × Jv)) :=
  match getF fs k with
  | some (.arr xs) =>
    match omap f xs with
    | some ys => some (setF fs k (.arr ys))
    | none => none
  | _ => some fs

/-- The `if 'messages' in body_json: for msg in body_json['messages']`
paragraph: a missing key skips the loop; a list is sanitized per message;
iterating a non-empty dict or string raises on `msg.keys()` (while the
empty ones perform no iterations), and non-iterable values raise
`TypeError`. -/
def sanitize_messages_step (fs : List (Str × Jv)) : Option Jv :=
  match getF fs "messages".data with
  | none => some (.obj fs)
  | some (.arr msgs) =>
    match omap sanitize_message msgs with
    | some ms => some (.obj (setF fs "messages".data (.arr ms)))
    | none => none
  | some (.obj kvs) => if kvs.isEmpty then some (.obj fs) else none
  | some (.str s) => if s.isEmpty then some (.obj fs) else none
  | some _ => none

/-- Model of `_sanitize_for_custom_provider` (`server/core/sanitize.py`):
deep whitelist of the request body for the custom backend. `none` models
the executions in which the Python code raises on ill-shaped data (a
non-dict where a dict is iterated). -/
def sanitize_for_custom_provider (body : Jv) : Option Jv :=
  match body with
  | .obj bf0 =>
    match sanitize_list_field sanitize_system_block "system".data
        (keep_allowed_keys bf0 ALLOWED_TOP_KEYS) with
    | none => none
    | some bf2 =>
      match sanitize_list_field sanitize_tool "tools".data bf2 with
      | none => none
      | some bf3 => sanitize_messages_step bf3
  | _ => none

example : sanitize_for_custom_provider
    (.obj [("model".data, .str "m".data), ("metadata".data, .null),
           ("messages".data, .arr [.obj [("role".data, .str "user".data),
             ("cache_control".data, .null),
             ("content".data, .arr [.obj [("type".data, .str "tool_use".data),
               ("id".data, .str "i".data),
               ("input".data, .str "\x7b\"a\": 1\x7d".data)]])]])]) =
    some (.obj [("model".data, .str "m".data),
           ("messages".data, .arr [.obj [("role".data, .str "user".data),
             ("content".data, .arr [.obj [("type".data, .str "tool_use".data),
               ("id".data, .str "i".data),
               ("input".data, .obj [("a".data, .num "1".data)])]])]])]) := rfl

/-- Model of `_fix_tool_input` on the fields of a dict: replace a string
`input` of a `tool_use` block with its parsed object. -/
def fix_tool_input_fields (bf : List (Str × Jv)) : List (Str × Jv) :=
  match getF bf "type".data, getF bf "input".data with
  | some (.str t), some (.str s) =>
    if t = "tool_use".data then setF bf "input".data (parse_tool_input s) else bf
  | _, _ => bf

/-- Apply `_fix_tool_input` to a value only when it is a dict. -/
def fix_block_if_obj : Jv → Jv
  | .obj bf => .obj (fix_tool_input_fields bf)
  | v => v

/-- Repair of `message.content[]` entries inside an SSE event. -/
def fix_message_content : Jv → Jv
  | .obj mf =>
    match getF mf "content".data with
    | some (.arr cbs) => .obj (setF mf "content".data (.arr (cbs.map fix_block_if_obj)))
    | _ => .obj mf
  | v => v

/-- One field of an SSE event under `fix_streaming_tool_inputs`: the
`content_block`, `delta` and `message` values are repaired in place. -/
def fix_event_field (kv : Str × Jv) : Str × Jv :=
  if kv.1 = "content_block".data ∨ kv.1 = "delta".data then (kv.1, fix_block_if_obj kv.2)
  else if kv.1 = "message".data then (kv.1, fix_message_content kv.2)
  else kv

/-- Repair of one decoded SSE event dict. -/
def fix_event : Jv → Jv
  | .obj ef => .obj (ef.map fix_event_field)
  | v => v

/-- Model of the per-line step of `fix_streaming_tool_inputs`: non-data
lines and the `data: [DONE]` terminator pass through; a data line whose
payload decodes to a dict is repaired and re-serialized; any other line
(decode failure, or an event on which the repair raises) passes through
unchanged. -/
def fix_sse_line (l : Str) : Str :=
  if ¬("data: ".data.isPrefixOf l) ∨ trimL l = "data: [DONE]".data then l
  else
    match loadsL (l.drop 6) with
    | some (.obj ef) => "data: ".data ++ printJL (fix_event (.obj ef))
    | _ => l

/-- Model of `fix_streaming_tool_inputs` (`server/core/sanitize.py`): split
the SSE body into lines, repair each, and rejoin with newlines. -/
def fix_streaming_tool_inputs (raw_body : Str) : Str :=
  joinWith "\n".data ((splitOnChar '\n' raw_body).map fix_sse_line)

example : fix_streaming_tool_inputs
    "data: \x7b\"content_block\": \x7b\"type\": \"tool_use\", \"input\": \"\x7b\"\x7d\x7d\n\ndata: [DONE]".data =
    "data: \x7b\"content_block\": \x7b\"type\": \"tool_use\", \"input\": \x7b\x7d\x7d\x7d\n\ndata: [DONE]".data := by
  decide

theorem loadsL_wf (cs : Str) (v : Jv) (h : loadsL cs = some v) : wfJ v = true := by
  unfold loadsL at h
  cases hp : parseVal (cs.length + 1) cs with
  | none =>
    simp only [hp] at h
    cases h
  | some p =>
    obtain ⟨v0, r⟩ := p
    simp only [hp] at h
    split at h
    · injection h with hv
      subst hv
      exact (parse_wf_all (cs.length + 1)).1 cs _ r hp
    · cases h

theorem parse_tool_input_obj (s : Str) :
    ∃ fs, parse_tool_input s = .obj fs ∧ wfF fs = true := by
  unfold parse_tool_input
  by_cases h : trimL s = []
  · simp only [if_pos h]
    exact ⟨[], rfl, rfl⟩
  · simp only [if_neg h]
    split
    · rename_i fields heq
      refine ⟨fields, rfl, ?_⟩
      have := loadsL_wf (trimL s) (.obj fields) heq
      rw [wfJ_obj_eq] at this
      exact this
    · exact ⟨[], rfl, rfl⟩
    · exact ⟨[], rfl, rfl⟩

theorem fix_tool_input_fields_idem (bf : List (Str × Jv)) :
    fix_tool_input_fields (fix_tool_input_fields bf) = fix_tool_input_fields bf := by
  cases hty : getF bf "type".data with
  | none => simp only [fix_tool_input_fields, hty]
  | some tv =>
    cases tv with
    | null => simp only [fix_tool_input_fields, hty]
    | bool b => simp only [fix_tool_input_fields, hty]
    | num t => simp only [fix_tool_input_fields, hty]
    | arr xs => simp only [fix_tool_input_fields, hty]
    | obj fs => simp only [fix_tool_input_fields, hty]
    | str t =>
      cases hin : getF bf "input".data with
      | none => simp only [fix_tool_input_fields, hty, hin]
      | some iv =>
        cases iv with
        | null => simp only [fix_tool_input_fields, hty, hin]
        | bool b => simp only [fix_tool_input_fields, hty, hin]
        | num tok => simp only [fix_tool_input_fields, hty, hin]
        | arr xs => simp only [fix_tool_input_fields, hty, hin]
        | obj fs => simp only [fix_tool_input_fields, hty, hin]
        | str s =>
          by_cases ht : t = "tool_use".data
          · obtain ⟨fs, hobj, _⟩ := parse_tool_input_obj s
            simp only [fix_tool_input_fields, hty, hin, if_pos ht]
            rw [getF_setF_ne bf "input".data "type".data (parse_tool_input s) (by decide)]
            rw [getF_setF_self bf "input".data (parse_tool_input s)]
            simp only [hty, hobj]
          · simp only [fix_tool_input_fields, hty, hin, if_neg ht]

theorem fix_block_if_obj_idem (v : Jv) :
    fix_block_if_obj (fix_block_if_obj v) = fix_block_if_obj v := by
  cases v with
  | obj bf =>
    rw [fix_block_if_obj, fix_block_if_obj]
    rw [fix_tool_input_fields_idem]
  | null => rfl
  | bool b => rfl
  | num t => rfl
  | str s => rfl
  | arr xs => rfl

theorem fix_message_content_idem (v : Jv) :
    fix_message_content (fix_message_content v) = fix_message_content v := by
  cases v with
  | obj mf =>
    rw [fix_message_content]
    split
    · rename_i cbs heq
      simp only [fix_message_content, getF_setF_self]
      rw [setF_setF]
      rw [List.map_map]
      rw [show (fix_block_if_obj ∘ fix_block_if_obj) = fix_block_if_obj by
        funext x
        exact fix_block_if_obj_idem x]
    · rename_i hnot
      rw [fix_message_content]
      split
      · rename_i cbs heq
        exact absurd heq (hnot cbs)
      · rfl
  | null => rfl
  | bool b => rfl
  | num t => rfl
  | str s => rfl
  | arr xs => rfl

theorem fix_event_field_fst (kv : Str × Jv) : (fix_event_field kv).1 = kv.1 := by
  unfold fix_event_field
  split
  · rfl
  · split
    · rfl
    · rfl

theorem fix_event_field_idem (kv : Str × Jv) :
    fix_event_field (fix_event_field kv) = fix_event_field kv := by
  unfold fix_event_field
  split
  · rename_i hk
    simp only [if_pos hk]
    rw [fix_block_if_obj_idem]
  · rename_i hk
    split
    · rename_i hk2
      simp only [if_neg hk, if_pos hk2]
      rw [fix_message_content_idem]
    · rename_i hk2
      simp only [if_neg hk, if_neg hk2]

theorem fix_event_idem (v : Jv) : fix_event (fix_event v) = fix_event v := by
  cases v with
  | obj ef =>
    rw [fix_event, fix_event]
    rw [List.map_map]
    rw [show (fix_event_field ∘ fix_event_field) = fix_event_field by
      funext kv
      exact fix_event_field_idem kv]
  | null => rfl
  | bool b => rfl
  | num t => rfl
  | str s => rfl
  | arr xs => rfl

theorem hasF_map_keyfix (f : Str × Jv → Str × Jv) (hfst : ∀ kv, (f kv).1 = kv.1)
    (fs : List (Str × Jv)) (k : Str) : hasF (fs.map f) k = hasF fs k := by
  induction fs with
  | nil => rfl
  | cons kv rest ih =>
    obtain ⟨k0, v0⟩ := kv
    rw [List.map_cons]
    rw [show hasF (f (k0, v0) :: List.map f rest) k =
        ((f (k0, v0)).1 = k || hasF (List.map f rest) k) from rfl]
    rw [hfst (k0, v0), ih, hasF]

theorem wfF_map (f : Str × Jv → Str × Jv) (hfst : ∀ kv, (f kv).1 = kv.1)
    (hwf : ∀ kv, wfJ kv.2 = true → wfJ (f kv).2 = true)
    (fs : List (Str × Jv)) (h : wfF fs = true) : wfF (fs.map f) = true := by
  induction fs with
  | nil => rfl
  | cons kv rest ih =>
    rw [wfF_cons_eq] at h
    simp only [Bool.and_eq_true, Bool.not_eq_true'] at h
    rw [List.map_cons, wfF_cons_eq]
    simp only [Bool.and_eq_true, Bool.not_eq_true']
    refine ⟨⟨?_, hwf kv h.1.2⟩, ih h.2⟩
    rw [hasF_map_keyfix f hfst, hfst kv]
    exact h.1.1

theorem wfL_map (f : Jv → Jv) (hwf : ∀ v, wfJ v = true → wfJ (f v) = true)
    (l : List Jv) (h : wfL l = true) : wfL (l.map f) = true := by
  induction l with
  | nil => rfl
  | cons v rest ih =>
    rw [wfL_cons_eq] at h
    simp only [Bool.and_eq_true] at h
    rw [List.map_cons, wfL_cons_eq]
    simp only [Bool.and_eq_true]
    exact ⟨hwf v h.1, ih h.2⟩

theorem wfJ_of_getF (fs : List (Str × Jv)) (k : Str) (v : Jv)
    (h : getF fs k = some v) (hwf : wfF fs = true) : wfJ v = true := by
  induction fs with
  | nil => cases h
  | cons kv rest ih =>
    obtain ⟨k0, v0⟩ := kv
    rw [getF] at h
    rw [wfF_cons_eq] at hwf
    simp only [Bool.and_eq_true, Bool.not_eq_true'] at hwf
    by_cases h0 : k0 = k
    · rw [if_pos h0] at h
      injection h with he
      rw [← he]
      exact hwf.1.2
    · rw [if_neg h0] at h
      exact ih h hwf.2

theorem fix_block_if_obj_wf (v : Jv) (h : wfJ v = true) :
    wfJ (fix_block_if_obj v) = true := by
  cases v with
  | obj bf =>
    rw [fix_block_if_obj, wfJ_obj_eq]
    rw [wfJ_obj_eq] at h
    unfold fix_tool_input_fields
    split
    · rename_i t s hty hin
      by_cases ht : t = "tool_use".data
      · rw [if_pos ht]
        obtain ⟨fs, hobj, hwfs⟩ := parse_tool_input_obj s
        refine wfF_setF bf "input".data (parse_tool_input s) h ?_
        rw [hobj, wfJ_obj_eq]
        exact hwfs
      · rw [if_neg ht]
        exact h
    · exact h
  | null => exact h
  | bool b => exact h
  | num t => exact h
  | str s => exact h
  | arr xs => exact h

theorem fix_message_content_wf (v : Jv) (h : wfJ v = true) :
    wfJ (fix_message_content v) = true := by
  cases v with
  | obj mf =>
    rw [fix_message_content]
    split
    · rename_i cbs heq
      rw [wfJ_obj_eq] at h ⊢
      refine wfF_setF mf "content".data _ h ?_
      rw [wfJ_arr_eq]
      have hcbs : wfJ (.arr cbs) = true := wfJ_of_getF mf "content".data _ heq h
      rw [wfJ_arr_eq] at hcbs
      exact wfL_map fix_block_if_obj fix_block_if_obj_wf cbs hcbs
    · exact h
  | null => exact h
  | bool b => exact h
  | num t => exact h
  | str s => exact h
  | arr xs => exact h

theorem fix_event_field_wf (kv : Str × Jv) (h : wfJ kv.2 = true) :
    wfJ (fix_event_field kv).2 = true := by
  unfold fix_event_field
  split
  · exact fix_block_if_obj_wf kv.2 h
  · split
    · exact fix_message_content_wf kv.2 h
    · exact h

theorem fix_event_wf (v : Jv) (h : wfJ v = true) : wfJ (fix_event v) = true := by
  cases v with
  | obj ef =>
    rw [fix_event, wfJ_obj_eq]
    rw [wfJ_obj_eq] at h
    exact wfF_map fix_event_field fix_event_field_fst fix_event_field_wf ef h
  | null => exact h
  | bool b => exact h
  | num t => exact h
  | str s => exact h
  | arr xs => exact h

theorem isPrefixOf_append_self (p t : Str) : p.isPrefixOf (p ++ t) = true := by
  rw [List.isPrefixOf_iff_prefix]
  exact List.prefix_append p t

theorem dropWhile_cons_false (p : Char → Bool) (c : Char) (l : Str) (h : p c = false) :
    List.dropWhile p (c :: l) = c :: l := by
  simp [List.dropWhile, h]

theorem trimL_head_last (c d : Char) (mid : Str) (hc : isWs c = false) (hd : isWs d = false) :
    trimL (c :: (mid ++ [d])) = c :: (mid ++ [d]) := by
  unfold trimL
  rw [dropWhile_cons_false isWs c (mid ++ [d]) hc]
  rw [show (c :: (mid ++ [d])).reverse = d :: (mid.reverse ++ [c]) by simp]
  rw [dropWhile_cons_false isWs d (mid.reverse ++ [c]) hd]
  rw [show (d :: (mid.reverse ++ [c])) = (c :: (mid ++ [d])).reverse by simp]
  rw [List.reverse_reverse]

theorem data_drop6 (p : Str) : ("data: ".data ++ p).drop 6 = p := rfl

theorem data_obj_shape (fs : List (Str × Jv)) :
    "data: ".data ++ printJL (.obj fs) =
      'd' :: (("ata: ".data ++ '\x7b' :: printFields fs) ++ ['\x7d']) := by
  rw [printJL_obj_eq]
  simp [List.cons_append, List.append_assoc]

theorem data_obj_ne_done (fs : List (Str × Jv)) :
    "data: ".data ++ printJL (.obj fs) ≠ "data: [DONE]".data := by
  intro heq
  have h2 : printJL (.obj fs) = "[DONE]".data := by
    have := congrArg (List.drop 6) heq
    rw [data_drop6] at this
    exact this
  rw [printJL_obj_eq] at h2
  have h3 : '\x7b' = '[' := by
    have := congrArg (fun l => l.headI) h2
    simp at this
  cases h3

theorem fix_sse_line_changed (l : Str) (ef : List (Str × Jv))
    (hc : ¬(¬("data: ".data.isPrefixOf l) ∨ trimL l = "data: [DONE]".data))
    (hload : loadsL (l.drop 6) = some (.obj ef)) :
    fix_sse_line l = "data: ".data ++ printJL (fix_event (.obj ef)) := by
  rw [fix_sse_line, if_neg hc]
  rw [hload]

theorem fix_sse_line_unchanged_cond (l : Str)
    (hc : ¬("data: ".data.isPrefixOf l) ∨ trimL l = "data: [DONE]".data) :
    fix_sse_line l = l := by
  rw [fix_sse_line, if_pos hc]

theorem fix_sse_line_idem (l : Str) : fix_sse_line (fix_sse_line l) = fix_sse_line l := by
  by_cases hc : ¬("data: ".data.isPrefixOf l) ∨ trimL l = "data: [DONE]".data
  · rw [fix_sse_line_unchanged_cond l hc, fix_sse_line_unchanged_cond l hc]
  · cases hload : loadsL (l.drop 6) with
    | none =>
      have h1 : fix_sse_line l = l := by
        rw [fix_sse_line, if_neg hc, hload]
      rw [h1, h1]
    | some v =>
      cases v with
      | obj ef =>
        have h1 := fix_sse_line_changed l ef hc hload
        have hwf : wfJ (fix_event (.obj ef)) = true :=
          fix_event_wf (.obj ef) (loadsL_wf (l.drop 6) (.obj ef) hload)
        rw [h1]
        rw [show fix_event (.obj ef) = .obj (ef.map fix_event_field) from rfl] at hwf ⊢
        have hc2 : ¬(¬("data: ".data.isPrefixOf
              ("data: ".data ++ printJL (.obj (ef.map fix_event_field)))) ∨
            trimL ("data: ".data ++ printJL (.obj (ef.map fix_event_field))) =
              "data: [DONE]".data) := by
          intro hor
          rcases hor with hp | ht
          · exact hp (isPrefixOf_append_self _ _)
          · rw [data_obj_shape,
              trimL_head_last 'd' '\x7d' _ (by decide) (by decide),
              ← data_obj_shape] at ht
            exact data_obj_ne_done _ ht
        rw [fix_sse_line_changed _ (ef.map fix_event_field) hc2 ?hload2]
        case hload2 =>
          rw [data_drop6]
          exact loadsL_printJL (.obj (ef.map fix_event_field)) hwf
        rw [show fix_event (.obj (ef.map fix_event_field)) =
            fix_event (fix_event (.obj ef)) from rfl]
        rw [fix_event_idem]
        rfl
      | null =>
        have h1 : fix_sse_line l = l := by
          rw [fix_sse_line, if_neg hc, hload]
        rw [h1, h1]
      | bool b =>
        have h1 : fix_sse_line l = l := by
          rw [fix_sse_line, if_neg hc, hload]
        rw [h1, h1]
      | num t =>
        have h1 : fix_sse_line l = l := by
          rw [fix_sse_line, if_neg hc, hload]
        rw [h1, h1]
      | str s =>
        have h1 : fix_sse_line l = l := by
          rw [fix_sse_line, if_neg hc, hload]
        rw [h1, h1]
      | arr xs =>
        have h1 : fix_sse_line l = l := by
          rw [fix_sse_line, if_neg hc, hload]
        rw [h1, h1]

theorem fix_sse_line_no_nl (l : Str) (h : '\n' ∉ l) : '\n' ∉ fix_sse_line l := by
  by_cases hc : ¬("data: ".data.isPrefixOf l) ∨ trimL l = "data: [DONE]".data
  · rw [fix_sse_line_unchanged_cond l hc]
    exact h
  · cases hload : loadsL (l.drop 6) with
    | none =>
      rw [fix_sse_line, if_neg hc, hload]
      exact h
    | some v =>
      cases v with
      | obj ef =>
        rw [fix_sse_line_changed l ef hc hload]
        intro hmem
        rcases List.mem_append.mp hmem with h1 | h2
        · simp at h1
        · exact printJL_no_nl (fix_event (.obj ef))
            (fix_event_wf (.obj ef) (loadsL_wf (l.drop 6) (.obj ef) hload)) h2
      | null =>
        rw [fix_sse_line, if_neg hc, hload]
        exact h
      | bool b =>
        rw [fix_sse_line, if_neg hc, hload]
        exact h
      | num t =>
        rw [fix_sse_line, if_neg hc, hload]
        exact h
      | str s =>
        rw [fix_sse_line, if_neg hc, hload]
        exact h
      | arr xs =>
        rw [fix_sse_line, if_neg hc, hload]
        exact h

theorem fix_streaming_tool_inputs_idem (raw_body : Str) :
    fix_streaming_tool_inputs (fix_streaming_tool_inputs raw_body) =
      fix_streaming_tool_inputs raw_body := by
  unfold fix_streaming_tool_inputs
  rw [show ("\n".data : Str) = ['\n'] from rfl]
  rw [split_join '\n' ((splitOnChar '\n' raw_body).map fix_sse_line)
    (by
      intro hnil
      exact splitOnChar_ne_nil '\n' raw_body (List.map_eq_nil_iff.mp hnil))
    (by
      intro l hl
      rcases List.mem_map.mp hl with ⟨l0, hl0, hfix⟩
      rw [← hfix]
      exact fix_sse_line_no_nl l0 (mem_splitOnChar_not_sep '\n' raw_body l0 hl0))]
  rw [List.map_map]
  rw [show (fix_sse_line ∘ fix_sse_line) = fix_sse_line by
    funext l
    exact fix_sse_line_idem l]

theorem containsS_iff (l : List Str) (k : Str) : l.contains k = true ↔ k ∈ l := by
  unfold List.contains
  exact List.elem_iff

theorem keep_all (fs : List (Str × Jv)) (allowed : List Str)
    (h : ∀ kv ∈ fs, allowed.contains kv.1 = true) :
    keep_allowed_keys fs allowed = fs :=
  List.filter_eq_self.mpr h

theorem mem_keep (fs : List (Str × Jv)) (allowed : List Str) (kv : Str × Jv)
    (h : kv ∈ keep_allowed_keys fs allowed) : kv ∈ fs ∧ allowed.contains kv.1 = true :=
  List.mem_filter.mp h

theorem keep_idem (fs : List (Str × Jv)) (allowed : List Str) :
    keep_allowed_keys (keep_allowed_keys fs allowed) allowed = keep_allowed_keys fs allowed :=
  keep_all _ _ fun kv h => (mem_keep _ _ kv h).2

theorem mem_setF (fs : List (Str × Jv)) (k : Str) (v : Jv) (kv : Str × Jv)
    (h : kv ∈ setF fs k v) : kv ∈ fs ∨ kv = (k, v) := by
  induction fs with
  | nil =>
    rw [setF] at h
    right
    simpa using h
  | cons kv0 rest ih =>
    obtain ⟨k0, v0⟩ := kv0
    rw [setF] at h
    by_cases h0 : k0 = k
    · rw [if_pos h0] at h
      rcases List.mem_cons.mp h with h1 | h2
      · right
        rw [h1, h0]
      · left
        exact List.mem_cons_of_mem _ h2
    · rw [if_neg h0] at h
      rcases List.mem_cons.mp h with h1 | h2
      · left
        rw [h1]
        exact List.mem_cons_self _ _
      · rcases ih h2 with h3 | h4
        · left
          exact List.mem_cons_of_mem _ h3
        · right
          exact h4

theorem getF_keep_mem (fs : List (Str × Jv)) (allowed : List Str) (k : Str)
    (h : allowed.contains k = true) :
    getF (keep_allowed_keys fs allowed) k = getF fs k := by
  induction fs with
  | nil => rfl
  | cons kv rest ih =>
    obtain ⟨k0, v0⟩ := kv
    unfold keep_allowed_keys at ih ⊢
    rw [List.filter_cons]
    by_cases hk : k0 = k
    · rw [hk]
      simp only [h, if_true]
      rw [getF, if_pos rfl, getF, if_pos rfl]
    · by_cases hc : allowed.contains k0 = true
      · simp only [hc, if_true]
        rw [getF, if_neg hk, getF, if_neg hk]
        exact ih
      · simp only [Bool.not_eq_true] at hc
        simp only [hc, Bool.false_eq_true, if_false]
        rw [getF, if_neg hk]
        exact ih

theorem typeIs_true_elim (bt : Option Jv) (n : Str) (h : typeIs bt n = true) :
    bt = some (.str n) := by
  unfold typeIs at h
  split at h
  · rename_i t s
    have hs : s = n := by simpa using h
    rw [hs]
  · cases h

theorem bak_contains_type (bt : Option Jv) :
    (block_allowed_keys bt).contains "type".data = true := by
  rw [block_allowed_keys.eq_def]
  split
  · split
    · decide
    · split
      · decide
      · split
        · decide
        · split
          · decide
          · decide
  · decide

theorem omap_idem (f : Jv → Option Jv) (hf : ∀ x y, f x = some y → f y = some y)
    (xs ys : List Jv) (h : omap f xs = some ys) : omap f ys = some ys := by
  induction xs generalizing ys with
  | nil =>
    rw [omap] at h
    injection h with h1
    rw [← h1]
    rfl
  | cons x rest ih =>
    rw [omap] at h
    cases hx : f x with
    | none =>
      cases hr : omap f rest with
      | none => simp only [hx, hr] at h; cases h
      | some zs => simp only [hx, hr] at h; cases h
    | some y =>
      cases hr : omap f rest with
      | none => simp only [hx, hr] at h; cases h
      | some zs =>
        simp only [hx, hr] at h
        injection h with h1
        rw [← h1, omap]
        simp only [hf x y hx, ih zs hr]

theorem sanitize_sub_block_idem (v : Jv) :
    sanitize_sub_block (sanitize_sub_block v) = sanitize_sub_block v := by
  cases v with
  | obj sf =>
    simp only [sanitize_sub_block]
    rw [getF_keep_mem sf (block_allowed_keys (getF sf "type".data)) "type".data
      (bak_contains_type (getF sf "type".data))]
    rw [keep_idem]
  | null => rfl
  | bool b => rfl
  | num t => rfl
  | str s => rfl
  | arr xs => rfl

theorem sanitize_system_block_idem (b b' : Jv) (h : sanitize_system_block b = some b') :
    sanitize_system_block b' = some b' := by
  cases b with
  | obj bf =>
    rw [sanitize_system_block] at h
    injection h with h1
    rw [← h1, sanitize_system_block, keep_idem]
  | null => cases h
  | bool x => cases h
  | num t => cases h
  | str s => cases h
  | arr xs => cases h

theorem sanitize_tool_idem (b b' : Jv) (h : sanitize_tool b = some b') :
    sanitize_tool b' = some b' := by
  cases b with
  | obj tf =>
    rw [sanitize_tool] at h
    injection h with h1
    rw [← h1, sanitize_tool, keep_idem]
  | null => cases h
  | bool x => cases h
  | num t => cases h
  | str s => cases h
  | arr xs => cases h

theorem slf_cases (f : Jv → Option Jv) (k : Str) (fs g : List (Str × Jv))
    (h : sanitize_list_field f k fs = some g) :
    (∃ xs ys, getF fs k = some (.arr xs) ∧ omap f xs = some ys ∧
      g = setF fs k (.arr ys)) ∨
    ((∀ xs, getF fs k ≠ some (.arr xs)) ∧ g = fs) := by
  rw [sanitize_list_field] at h
  cases hg : getF fs k with
  | none =>
    rw [hg] at h
    injection h with h1
    refine Or.inr ⟨?_, h1.symm⟩
    intro xs hxs
    cases hxs
  | some v =>
    rw [hg] at h
    cases v with
    | arr xs =>
      cases ho : omap f xs with
      | none => simp only [ho] at h; cases h
      | some ys =>
        simp only [ho] at h
        injection h with h1
        exact Or.inl ⟨xs, ys, rfl, ho, h1.symm⟩
    | null =>
      injection h with h1
      refine Or.inr ⟨?_, h1.symm⟩
      intro xs hxs
      simp at hxs
    | bool x =>
      injection h with h1
      refine Or.inr ⟨?_, h1.symm⟩
      intro xs hxs
      simp at hxs
    | num t =>
      injection h with h1
      refine Or.inr ⟨?_, h1.symm⟩
      intro xs hxs
      simp at hxs
    | str s =>
      injection h with h1
      refine Or.inr ⟨?_, h1.symm⟩
      intro xs hxs
      simp at hxs
    | obj kvs =>
      injection h with h1
      refine Or.inr ⟨?_, h1.symm⟩
      intro xs hxs
      simp at hxs

theorem slf_eval_not_arr (f : Jv → Option Jv) (k : Str) (fs : List (Str × Jv))
    (h : ∀ xs, getF fs k ≠ some (.arr xs)) :
    sanitize_list_field f k fs = some fs := by
  rw [sanitize_list_field]
  cases hg : getF fs k with
  | none => rfl
  | some v =>
    cases v with
    | arr xs => exact absurd hg (h xs)
    | null => rfl
    | bool x => rfl
    | num t => rfl
    | str s => rfl
    | obj kvs => rfl

theorem slf_eval_arr (f : Jv → Option Jv) (k : Str) (fs : List (Str × Jv))
    (xs ys : List Jv) (hg : getF fs k = some (.arr xs)) (ho : omap f xs = some ys) :
    sanitize_list_field f k fs = some (setF fs k (.arr ys)) := by
  rw [sanitize_list_field]
  simp only [hg, ho]

theorem slf_fixed_transfer (f : Jv → Option Jv) (k : Str) (fs2 g : List (Str × Jv))
    (hf : ∀ x y, f x = some y → f y = some y)
    (hfix : sanitize_list_field f k fs2 = some fs2)
    (hEq : getF g k = getF fs2 k) :
    sanitize_list_field f k g = some g := by
  rcases slf_cases f k fs2 fs2 hfix with ⟨xs, ys, hg, ho, hset⟩ | ⟨hnot, _⟩
  · have hgk : getF fs2 k = some (.arr ys) := by
      rw [hset]
      exact getF_setF_self fs2 k (.arr ys)
    have hoy : omap f ys = some ys := omap_idem f hf xs ys ho
    have h4 : getF g k = some (.arr ys) := by rw [hEq, hgk]
    rw [slf_eval_arr f k g ys ys h4 hoy]
    rw [setF_getF_self g k (.arr ys) h4]
  · exact slf_eval_not_arr f k g fun xs hxs => hnot xs (hEq ▸ hxs)

theorem slf_idem (f : Jv → Option Jv) (k : Str) (fs g : List (Str × Jv))
    (hf : ∀ x y, f x = some y → f y = some y)
    (h : sanitize_list_field f k fs = some g) :
    sanitize_list_field f k g = some g := by
  rcases slf_cases f k fs g h with ⟨xs, ys, hg, ho, hset⟩ | ⟨hnot, hgfs⟩
  · have h4 : getF g k = some (.arr ys) := by
      rw [hset]
      exact getF_setF_self fs k (.arr ys)
    have hoy : omap f ys = some ys := omap_idem f hf xs ys ho
    rw [slf_eval_arr f k g ys ys h4 hoy]
    rw [setF_getF_self g k (.arr ys) h4]
  · rw [hgfs]
    exact slf_eval_not_arr f k fs hnot

theorem slf_getF_ne (f : Jv → Option Jv) (k k2 : Str) (fs g : List (Str × Jv))
    (h : sanitize_list_field f k fs = some g) (hne : k2 ≠ k) :
    getF g k2 = getF fs k2 := by
  rcases slf_cases f k fs g h with ⟨xs, ys, hg, ho, hset⟩ | ⟨hnot, hgfs⟩
  · rw [hset]
    exact getF_setF_ne fs k k2 (.arr ys) hne
  · rw [hgfs]

theorem slf_mem (f : Jv → Option Jv) (k : Str) (fs g : List (Str × Jv))
    (h : sanitize_list_field f k fs = some g) (kv : Str × Jv) (hm : kv ∈ g) :
    kv ∈ fs ∨ kv.1 = k := by
  rcases slf_cases f k fs g h with ⟨xs, ys, hg, ho, hset⟩ | ⟨hnot, hgfs⟩
  · rw [hset] at hm
    rcases mem_setF fs k (.arr ys) kv hm with h1 | h2
    · exact Or.inl h1
    · right
      rw [h2]
  · rw [hgfs] at hm
    exact Or.inl hm

theorem keep_bak_idem (bf : List (Str × Jv)) :
    keep_allowed_keys (keep_allowed_keys bf (block_allowed_keys (getF bf "type".data)))
      (block_allowed_keys
        (getF (keep_allowed_keys bf (block_allowed_keys (getF bf "type".data))) "type".data)) =
    keep_allowed_keys bf (block_allowed_keys (getF bf "type".data)) := by
  rw [getF_keep_mem bf (block_allowed_keys (getF bf "type".data)) "type".data
    (bak_contains_type (getF bf "type".data))]
  exact keep_idem bf (block_allowed_keys (getF bf "type".data))

theorem getF_keep_type (bf : List (Str × Jv)) :
    getF (keep_allowed_keys bf (block_allowed_keys (getF bf "type".data))) "type".data =
      getF bf "type".data :=
  getF_keep_mem bf (block_allowed_keys (getF bf "type".data)) "type".data
    (bak_contains_type (getF bf "type".data))

theorem sanitize_block_idem (b b' : Jv) (h : sanitize_block b = some b') :
    sanitize_block b' = some b' := by
  cases b with
  | null => cases h
  | bool x => cases h
  | num t => cases h
  | str s => cases h
  | arr xs => cases h
  | obj bf =>
    simp only [sanitize_block] at h
    by_cases htu : typeIs (getF bf "type".data) "tool_use".data = true
    · have hbt : getF bf "type".data = some (.str "tool_use".data) :=
        typeIs_true_elim _ _ htu
      have hntr : ¬ typeIs (getF bf "type".data) "tool_result".data = true := by
        rw [hbt]
        decide
      rw [if_pos htu, if_neg hntr] at h
      cases hin : getF (keep_allowed_keys bf (block_allowed_keys (getF bf "type".data)))
          "input".data with
      | some v =>
        cases v with
        | str s =>
          simp only [hin] at h
          injection h with h1
          subst h1
          have hg_type : getF (setF (keep_allowed_keys bf
                (block_allowed_keys (getF bf "type".data))) "input".data
                (parse_tool_input s)) "type".data = some (.str "tool_use".data) := by
            rw [getF_setF_ne _ _ _ _ (by decide : ("type".data : Str) ≠ "input".data)]
            rw [getF_keep_type, hbt]
          simp only [sanitize_block]
          rw [if_pos (show typeIs (getF (setF (keep_allowed_keys bf
                (block_allowed_keys (getF bf "type".data))) "input".data
                (parse_tool_input s)) "type".data) "tool_use".data = true by
              rw [hg_type]; decide),
            if_neg (show ¬ typeIs (getF (setF (keep_allowed_keys bf
                (block_allowed_keys (getF bf "type".data))) "input".data
                (parse_tool_input s)) "type".data) "tool_result".data = true by
              rw [hg_type]; decide)]
          have hkeep : keep_allowed_keys (setF (keep_allowed_keys bf
                (block_allowed_keys (getF bf "type".data))) "input".data
                (parse_tool_input s))
              (block_allowed_keys (getF (setF (keep_allowed_keys bf
                (block_allowed_keys (getF bf "type".data))) "input".data
                (parse_tool_input s)) "type".data)) =
              setF (keep_allowed_keys bf (block_allowed_keys (getF bf "type".data)))
                "input".data (parse_tool_input s) := by
            rw [hg_type]
            refine keep_all _ _ ?_
            intro kv hkv
            rcases mem_setF _ _ _ kv hkv with h1 | h2
            · have h3 := (mem_keep _ _ kv h1).2
              rw [hbt] at h3
              exact h3
            · rw [h2]
              show (block_allowed_keys (some (Jv.str "tool_use".data))).contains
                "input".data = true
              decide
          rw [hkeep]
          obtain ⟨pf, hpf, _⟩ := parse_tool_input_obj s
          have hgin : getF (setF (keep_allowed_keys bf
                (block_allowed_keys (getF bf "type".data))) "input".data
                (parse_tool_input s)) "input".data = some (.obj pf) := by
            rw [getF_setF_self, hpf]
          simp only [hgin]
        | null =>
          simp only [hin] at h
          injection h with h1
          subst h1
          simp only [sanitize_block]
          rw [if_pos (show typeIs (getF (keep_allowed_keys bf
                (block_allowed_keys (getF bf "type".data))) "type".data)
                "tool_use".data = true by
              rw [getF_keep_type, hbt]; decide),
            if_neg (show ¬ typeIs (getF (keep_allowed_keys bf
                (block_allowed_keys (getF bf "type".data))) "type".data)
                "tool_result".data = true by
              rw [getF_keep_type, hbt]; decide)]
          rw [keep_bak_idem bf]
          simp only [hin]
        | bool x =>
          simp only [hin] at h
          injection h with h1
          subst h1
          simp only [sanitize_block]
          rw [if_pos (show typeIs (getF (keep_allowed_keys bf
                (block_allowed_keys (getF bf "type".data))) "type".data)
                "tool_use".data = true by
              rw [getF_keep_type, hbt]; decide),
            if_neg (show ¬ typeIs (getF (keep_allowed_keys bf
                (block_allowed_keys (getF bf "type".data))) "type".data)
                "tool_result".data = true by
              rw [getF_keep_type, hbt]; decide)]
          rw [keep_bak_idem bf]
          simp only [hin]
        | num t =>
          simp only [hin] at h
          injection h with h1
          subst h1
          simp only [sanitize_block]
          rw [if_pos (show typeIs (getF (keep_allowed_keys bf
                (block_allowed_keys (getF bf "type".data))) "type".data)
                "tool_use".data = true by
              rw [getF_keep_type, hbt]; decide),
            if_neg (show ¬ typeIs (getF (keep_allowed_keys bf
                (block_allowed_keys (getF bf "type".data))) "type".data)
                "tool_result".data = true by
              rw [getF_keep_type, hbt]; decide)]
          rw [keep_bak_idem bf]
          simp only [hin]
        | arr xs =>
          simp only [hin] at h
          injection h with h1
          subst h1
          simp only [sanitize_block]
          rw [if_pos (show typeIs (getF (keep_allowed_keys bf
                (block_allowed_keys (getF bf "type".data))) "type".data)
                "tool_use".data = true by
              rw [getF_keep_type, hbt]; decide),
            if_neg (show ¬ typeIs (getF (keep_allowed_keys bf
                (block_allowed_keys (getF bf "type".data))) "type".data)
                "tool_result".data = true by
              rw [getF_keep_type, hbt]; decide)]
          rw [keep_bak_idem bf]
          simp only [hin]
        | obj kvs =>
          simp only [hin] at h
          injection h with h1
          subst h1
          simp only [sanitize_block]
          rw [if_pos (show typeIs (getF (keep_allowed_keys bf
                (block_allowed_keys (getF bf "type".data))) "type".data)
                "tool_use".data = true by
              rw [getF_keep_type, hbt]; decide),
            if_neg (show ¬ typeIs (getF (keep_allowed_keys bf
                (block_allowed_keys (getF bf "type".data))) "type".data)
                "tool_result".data = true by
              rw [getF_keep_type, hbt]; decide)]
          rw [keep_bak_idem bf]
          simp only [hin]
      | none =>
        simp only [hin] at h
        injection h with h1
        subst h1
        simp only [sanitize_block]
        rw [if_pos (show typeIs (getF (keep_allowed_keys bf
              (block_allowed_keys (getF bf "type".data))) "type".data)
              "tool_use".data = true by
            rw [getF_keep_type, hbt]; decide),
          if_neg (show ¬ typeIs (getF (keep_allowed_keys bf
              (block_allowed_keys (getF bf "type".data))) "type".data)
              "tool_result".data = true by
            rw [getF_keep_type, hbt]; decide)]
        rw [keep_bak_idem bf]
        simp only [hin]
    · rw [if_neg htu] at h
      by_cases htr : typeIs (getF bf "type".data) "tool_result".data = true
      · have hbt : getF bf "type".data = some (.str "tool_result".data) :=
          typeIs_true_elim _ _ htr
        rw [if_pos htr] at h
        cases hcon : getF (keep_allowed_keys bf (block_allowed_keys (getF bf "type".data)))
            "content".data with
        | some v =>
          cases v with
          | arr subs =>
            simp only [hcon] at h
            injection h with h1
            subst h1
            have hg_type : getF (setF (keep_allowed_keys bf
                  (block_allowed_keys (getF bf "type".data))) "content".data
                  (.arr (subs.map sanitize_sub_block))) "type".data =
                some (.str "tool_result".data) := by
              rw [getF_setF_ne _ _ _ _ (by decide : ("type".data : Str) ≠ "content".data)]
              rw [getF_keep_type, hbt]
            simp only [sanitize_block]
            rw [if_neg (show ¬ typeIs (getF (setF (keep_allowed_keys bf
                  (block_allowed_keys (getF bf "type".data))) "content".data
                  (.arr (subs.map sanitize_sub_block))) "type".data) "tool_use".data = true by
                rw [hg_type]; decide),
              if_pos (show typeIs (getF (setF (keep_allowed_keys bf
                  (block_allowed_keys (getF bf "type".data))) "content".data
                  (.arr (subs.map sanitize_sub_block))) "type".data)
                  "tool_result".data = true by
                rw [hg_type]; decide)]
            have hkeep : keep_allowed_keys (setF (keep_allowed_keys bf
                  (block_allowed_keys (getF bf "type".data))) "content".data
                  (.arr (subs.map sanitize_sub_block)))
                (block_allowed_keys (getF (setF (keep_allowed_keys bf
                  (block_allowed_keys (getF bf "type".data))) "content".data
                  (.arr (subs.map sanitize_sub_block))) "type".data)) =
                setF (keep_allowed_keys bf (block_allowed_keys (getF bf "type".data)))
                  "content".data (.arr (subs.map sanitize_sub_block)) := by
              rw [hg_type]
              refine keep_all _ _ ?_
              intro kv hkv
              rcases mem_setF _ _ _ kv hkv with h1 | h2
              · have h3 := (mem_keep _ _ kv h1).2
                rw [hbt] at h3
                exact h3
              · rw [h2]
                show (block_allowed_keys (some (Jv.str "tool_result".data))).contains
                  "content".data = true
                decide
            rw [hkeep]
            have hgcon : getF (setF (keep_allowed_keys bf
                  (block_allowed_keys (getF bf "type".data))) "content".data
                  (.arr (subs.map sanitize_sub_block))) "content".data =
                some (.arr (subs.map sanitize_sub_block)) := getF_setF_self _ _ _
            simp only [hgcon]
            rw [List.map_map,
              show (sanitize_sub_block ∘ sanitize_sub_block) = sanitize_sub_block from
                funext sanitize_sub_block_idem,
              setF_setF]
          | null =>
            simp only [hcon] at h
            injection h with h1
            subst h1
            simp only [sanitize_block]
            rw [if_neg (show ¬ typeIs (getF (keep_allowed_keys bf
                  (block_allowed_keys (getF bf "type".data))) "type".data)
                  "tool_use".data = true by
                rw [getF_keep_type, hbt]; decide),
              if_pos (show typeIs (getF (keep_allowed_keys bf
                  (block_allowed_keys (getF bf "type".data))) "type".data)
                  "tool_result".data = true by
                rw [getF_keep_type, hbt]; decide)]
            rw [keep_bak_idem bf]
            simp only [hcon]
          | bool x =>
            simp only [hcon] at h
            injection h with h1
            subst h1
            simp only [sanitize_block]
            rw [if_neg (show ¬ typeIs (getF (keep_allowed_keys bf
                  (block_allowed_keys (getF bf "type".data))) "type".data)
                  "tool_use".data = true by
                rw [getF_keep_type, hbt]; decide),
              if_pos (show typeIs (getF (keep_allowed_keys bf
                  (block_allowed_keys (getF bf "type".data))) "type".data)
                  "tool_result".data = true by
                rw [getF_keep_type, hbt]; decide)]
            rw [keep_bak_idem bf]
            simp only [hcon]
          | num t =>
            simp only [hcon] at h
            injection h with h1
            subst h1
            simp only [sanitize_block]
            rw [if_neg (show ¬ typeIs (getF (keep_allowed_keys bf
                  (block_allowed_keys (getF bf "type".data))) "type".data)
                  "tool_use".data = true by
                rw [getF_keep_type, hbt]; decide),
              if_pos (show typeIs (getF (keep_allowed_keys bf
                  (block_allowed_keys (getF bf "type".data))) "type".data)
                  "tool_result".data = true by
                rw [getF_keep_type, hbt]; decide)]
            rw [keep_bak_idem bf]
            simp only [hcon]
          | str s =>
            simp only [hcon] at h
            injection h with h1
            subst h1
            simp only [sanitize_block]
            rw [if_neg (show ¬ typeIs (getF (keep_allowed_keys bf
                  (block_allowed_keys (getF bf "type".data))) "type".data)
                  "tool_use".data = true by
                rw [getF_keep_type, hbt]; decide),
              if_pos (show typeIs (getF (keep_allowed_keys bf
                  (block_allowed_keys (getF bf "type".data))) "type".data)
                  "tool_result".data = true by
                rw [getF_keep_type, hbt]; decide)]
            rw [keep_bak_idem bf]
            simp only [hcon]
          | obj kvs =>
            simp only [hcon] at h
            injection h with h1
            subst h1
            simp only [sanitize_block]
            rw [if_neg (show ¬ typeIs (getF (keep_allowed_keys bf
                  (block_allowed_keys (getF bf "type".data))) "type".data)
                  "tool_use".data = true by
                rw [getF_keep_type, hbt]; decide),
              if_pos (show typeIs (getF (keep_allowed_keys bf
                  (block_allowed_keys (getF bf "type".data))) "type".data)
                  "tool_result".data = true by
                rw [getF_keep_type, hbt]; decide)]
            rw [keep_bak_idem bf]
            simp only [hcon]
        | none =>
          simp only [hcon] at h
          injection h with h1
          subst h1
          simp only [sanitize_block]
          rw [if_neg (show ¬ typeIs (getF (keep_allowed_keys bf
                (block_allowed_keys (getF bf "type".data))) "type".data)
                "tool_use".data = true by
              rw [getF_keep_type, hbt]; decide),
            if_pos (show typeIs (getF (keep_allowed_keys bf
                (block_allowed_keys (getF bf "type".data))) "type".data)
                "tool_result".data = true by
              rw [getF_keep_type, hbt]; decide)]
          rw [keep_bak_idem bf]
          simp only [hcon]
      · rw [if_neg htr] at h
        injection h with h1
        subst h1
        simp only [sanitize_block]
        rw [if_neg (show ¬ typeIs (getF (keep_allowed_keys bf
              (block_allowed_keys (getF bf "type".data))) "type".data)
              "tool_use".data = true by
            rw [getF_keep_type]; exact htu),
          if_neg (show ¬ typeIs (getF (keep_allowed_keys bf
              (block_allowed_keys (getF bf "type".data))) "type".data)
              "tool_result".data = true by
            rw [getF_keep_type]; exact htr)]
        rw [keep_bak_idem bf]

theorem sanitize_message_idem (m m' : Jv) (h : sanitize_message m = some m') :
    sanitize_message m' = some m' := by
  cases m with
  | null => cases h
  | bool x => cases h
  | num t => cases h
  | str s => cases h
  | arr xs => cases h
  | obj mf =>
    simp only [sanitize_message] at h
    cases hc : getF (keep_allowed_keys mf (["role", "content"].map String.data))
        "content".data with
    | some v =>
      cases v with
      | arr blocks =>
        simp only [hc] at h
        cases ho : omap sanitize_block blocks with
        | none => simp only [ho] at h; cases h
        | some bs =>
          simp only [ho] at h
          injection h with h1
          subst h1
          simp only [sanitize_message]
          have hkeep : keep_allowed_keys
              (setF (keep_allowed_keys mf (["role", "content"].map String.data))
                "content".data (.arr bs)) (["role", "content"].map String.data) =
              setF (keep_allowed_keys mf (["role", "content"].map String.data))
                "content".data (.arr bs) := by
            refine keep_all _ _ ?_
            intro kv hkv
            rcases mem_setF _ _ _ kv hkv with h1 | h2
            · exact (mem_keep _ _ kv h1).2
            · rw [h2]
              show (["role", "content"].map String.data).contains "content".data = true
              decide
          rw [hkeep]
          have hc2 : getF (setF (keep_allowed_keys mf
                (["role", "content"].map String.data)) "content".data (.arr bs))
              "content".data = some (.arr bs) := getF_setF_self _ _ _
          simp only [hc2]
          have ho2 : omap sanitize_block bs = some bs :=
            omap_idem sanitize_block sanitize_block_idem blocks bs ho
          simp only [ho2]
          rw [setF_setF]
      | null =>
        simp only [hc] at h
        injection h with h1
        subst h1
        simp only [sanitize_message]
        rw [keep_idem]
        simp only [hc]
      | bool x =>
        simp only [hc] at h
        injection h with h1
        subst h1
        simp only [sanitize_message]
        rw [keep_idem]
        simp only [hc]
      | num t =>
        simp only [hc] at h
        injection h with h1
        subst h1
        simp only [sanitize_message]
        rw [keep_idem]
        simp only [hc]
      | str s =>
        simp only [hc] at h
        injection h with h1
        subst h1
        simp only [sanitize_message]
        rw [keep_idem]
        simp only [hc]
      | obj kvs =>
        simp only [hc] at h
        injection h with h1
        subst h1
        simp only [sanitize_message]
        rw [keep_idem]
        simp only [hc]
    | none =>
      simp only [hc] at h
      injection h with h1
      subst h1
      simp only [sanitize_message]
      rw [keep_idem]
      simp only [hc]

theorem sfcp_second (g : List (Str × Jv))
    (hkeepg : keep_allowed_keys g ALLOWED_TOP_KEYS = g)
    (hsysg : sanitize_list_field sanitize_system_block "system".data g = some g)
    (htoolsg : sanitize_list_field sanitize_tool "tools".data g = some g)
    (hmsg : sanitize_messages_step g = some (.obj g)) :
    sanitize_for_custom_provider (.obj g) = some (.obj g) := by
  simp only [sanitize_for_custom_provider]
  rw [hkeepg]
  simp only [hsysg, htoolsg]
  exact hmsg

theorem sanitize_for_custom_provider_idem (x y : Jv)
    (h : sanitize_for_custom_provider x = some y) :
    sanitize_for_custom_provider y = some y := by
  cases x with
  | null => cases h
  | bool b => cases h
  | num t => cases h
  | str s => cases h
  | arr xs => cases h
  | obj bf0 =>
    simp only [sanitize_for_custom_provider] at h
    cases hs : sanitize_list_field sanitize_system_block "system".data
        (keep_allowed_keys bf0 ALLOWED_TOP_KEYS) with
    | none => simp only [hs] at h; cases h
    | some bf2 =>
      simp only [hs] at h
      cases ht : sanitize_list_field sanitize_tool "tools".data bf2 with
      | none => simp only [ht] at h; cases h
      | some bf3 =>
        simp only [ht] at h
        have hsubs2 : ∀ kv ∈ bf2, ALLOWED_TOP_KEYS.contains kv.1 = true := by
          intro kv hkv
          rcases slf_mem _ _ _ _ hs kv hkv with h1 | h2
          · exact (mem_keep _ _ kv h1).2
          · rw [h2]
            decide
        have hsubs3 : ∀ kv ∈ bf3, ALLOWED_TOP_KEYS.contains kv.1 = true := by
          intro kv hkv
          rcases slf_mem _ _ _ _ ht kv hkv with h1 | h2
          · exact hsubs2 kv h1
          · rw [h2]
            decide
        have hsfix2 : sanitize_list_field sanitize_system_block "system".data bf2 =
            some bf2 :=
          slf_idem _ _ _ _ sanitize_system_block_idem hs
        have htfix3 : sanitize_list_field sanitize_tool "tools".data bf3 = some bf3 :=
          slf_idem _ _ _ _ sanitize_tool_idem ht
        have hsys3 : sanitize_list_field sanitize_system_block "system".data bf3 =
            some bf3 :=
          slf_fixed_transfer _ _ _ _ sanitize_system_block_idem hsfix2
            (slf_getF_ne _ _ _ _ _ ht (by decide))
        rw [sanitize_messages_step] at h
        cases hm : getF bf3 "messages".data with
        | none =>
          rw [hm] at h
          injection h with h1
          subst h1
          refine sfcp_second bf3 (keep_all _ _ hsubs3) hsys3 htfix3 ?_
          rw [sanitize_messages_step, hm]
        | some v =>
          cases v with
          | arr msgs0 =>
            simp only [hm] at h
            cases ho : omap sanitize_message msgs0 with
            | none => simp only [ho] at h; cases h
            | some ms =>
              simp only [ho] at h
              injection h with h1
              subst h1
              have hgm : getF (setF bf3 "messages".data (.arr ms)) "messages".data =
                  some (.arr ms) := getF_setF_self _ _ _
              have hom : omap sanitize_message ms = some ms :=
                omap_idem sanitize_message sanitize_message_idem msgs0 ms ho
              refine sfcp_second (setF bf3 "messages".data (.arr ms)) ?_ ?_ ?_ ?_
              · refine keep_all _ _ ?_
                intro kv hkv
                rcases mem_setF _ _ _ kv hkv with h1 | h2
                · exact hsubs3 kv h1
                · rw [h2]
                  show ALLOWED_TOP_KEYS.contains "messages".data = true
                  decide
              · refine slf_fixed_transfer _ _ bf2 _ sanitize_system_block_idem hsfix2 ?_
                rw [getF_setF_ne _ _ _ _ (by decide : ("system".data : Str) ≠ "messages".data)]
                exact slf_getF_ne _ _ _ _ _ ht (by decide)
              · refine slf_fixed_transfer _ _ bf3 _ sanitize_tool_idem htfix3 ?_
                exact getF_setF_ne _ _ _ _ (by decide : ("tools".data : Str) ≠ "messages".data)
              · rw [sanitize_messages_step]
                simp only [hgm, hom]
                rw [setF_setF]
          | null => simp only [hm] at h; cases h
          | bool b2 => simp only [hm] at h; cases h
          | num t2 => simp only [hm] at h; cases h
          | str s2 =>
            simp only [hm] at h
            by_cases hE : s2.isEmpty = true
            · rw [if_pos hE] at h
              injection h with h1
              subst h1
              refine sfcp_second bf3 (keep_all _ _ hsubs3) hsys3 htfix3 ?_
              simp only [sanitize_messages_step, hm]
              rw [if_pos hE]
            · rw [if_neg hE] at h
              cases h
          | obj kvs =>
            simp only [hm] at h
            by_cases hE : kvs.isEmpty = true
            · rw [if_pos hE] at h
              injection h with h1
              subst h1
              refine sfcp_second bf3 (keep_all _ _ hsubs3) hsys3 htfix3 ?_
              simp only [sanitize_messages_step, hm]
              rw [if_pos hE]
            · rw [if_neg hE] at h
              cases h

/-- Generic ordered association list lookup (Python `d.get(k)` for
non-JSON-valued dicts such as header maps and usage buckets). -/
def getA {α : Type} (fs : List (Str × α)) (k : Str) : Option α :=
  match fs with
  | [] => none
  | (k0, v) :: rest => if k0 = k then some v else getA rest k

/-- Generic `d[k] = v`: replace in place, else append. -/
def setA {α : Type} (fs : List (Str × α)) (k : Str) (v : α) : List (Str × α) :=
  match fs with
  | [] => [(k, v)]
  | (k0, v0) :: rest => if k0 = k then (k0, v) :: rest else (k0, v0) :: setA rest k v

/-- Generic `k in d`. -/
def hasA {α : Type} (fs : List (Str × α)) (k : Str) : Bool :=
  match fs with
  | [] => false
  | (k0, _) :: rest => k0 = k || hasA rest k

/-- `Option`-valued filter: models a Python list comprehension whose
predicate can raise (`none` = the comprehension raises). -/
def ofilter (p : α → Option Bool) : List α → Option (List α)
  | [] => some []
  | x :: rest =>
    match p x, ofilter p rest with
    | some b, some ys => some (if b then x :: ys else ys)
    | _, _ => none

/-- The keep-condition of the dispatcher thinking strip
(`endpoints.py:72-75`): `block.get('type') not in ('thinking',
'redacted_thinking')`; a non-dict block raises `AttributeError` on
`.get`. -/
def keep_block (b : Jv) : Option Bool :=
  match b with
  | .obj bf =>
    some (!(typeIs (getF bf "type".data) "thinking".data ||
            typeIs (getF bf "type".data) "redacted_thinking".data))
  | _ => none

/-- One message of the dispatcher thinking strip (`endpoints.py:70-75`):
a list-valued `content` is filtered; any other `content` is left alone;
a non-dict message raises on `.get`. -/
def strip_thinking_message (m : Jv) : Option Jv :=
  match m with
  | .obj mf =>
    match getF mf "content".data with
    | some (.arr blocks) =>
      match ofilter keep_block blocks with
      | some bs => some (.obj (setF mf "content".data (.arr bs)))
      | none => none
    | _ => some (.obj mf)
  | _ => none

/-- The dispatcher thinking strip over the whole body
(`endpoints.py:68-75`): runs only when `messages` is present; iterating a
non-empty dict or string raises; non-iterable values raise `TypeError`. -/
def strip_thinking_messages (body : List (Str × Jv)) : Option (List (Str × Jv)) :=
  match getF body "messages".data with
  | none => some body
  | some (.arr msgs) =>
    match omap strip_thinking_message msgs with
    | some ms => some (setF body "messages".data (.arr ms))
    | none => none
  | some (.obj kvs) => if kvs.isEmpty then some body else none
  | some (.str s) => if s.isEmpty then some body else none
  | some _ => none

/-- The dispatcher body preparation (`endpoints.py:67-94`): strip
thinking/redacted-thinking blocks from every message, delete the
top-level `thinking`/`effort` keys for non-reasoning targets, strip a
`[1m]` suffix from the model name, and store the final model name in the
body. Returns the prepared body together with the final model name. -/
def prepare_request_body (body : List (Str × Jv)) (translated_model provider_type : Str) :
    Option (List (Str × Jv) × Str) :=
  match strip_thinking_messages body with
  | none => none
  | some b1 =>
    let b2 := if !is_reasoning_model translated_model provider_type then
        delF (delF b1 "thinking".data) "effort".data
      else b1
    let model2 := if containsL translated_model "[1m]".data then
        replaceL translated_model "[1m]".data []
      else translated_model
    some (setF b2 "model".data (.str model2), model2)

example : prepare_request_body
    [("model".data, .str "m".data),
     ("thinking".data, .obj [("type".data, .str "enabled".data)]),
     ("messages".data, .arr [.obj [("role".data, .str "user".data),
       ("content".data, .arr [.obj [("type".data, .str "thinking".data)],
                              .obj [("type".data, .str "text".data)]])]])]
    "glm-4.7[1m]".data "zai".data =
    some ([("model".data, .str "glm-4.7".data),
     ("messages".data, .arr [.obj [("role".data, .str "user".data),
       ("content".data, .arr [.obj [("type".data, .str "text".data)]])]])],
     "glm-4.7".data) := rfl

theorem ofilter_mem (p : α → Option Bool) (xs ys : List α)
    (h : ofilter p xs = some ys) (y : α) (hy : y ∈ ys) : y ∈ xs ∧ p y = some true := by
  induction xs generalizing ys with
  | nil =>
    rw [ofilter] at h
    injection h with h1
    rw [← h1] at hy
    cases hy
  | cons x rest ih =>
    rw [ofilter] at h
    cases hp : p x with
    | none =>
      cases hr : ofilter p rest with
      | none => simp only [hp, hr] at h; cases h
      | some zs => simp only [hp, hr] at h; cases h
    | some b =>
      cases hr : ofilter p rest with
      | none => simp only [hp, hr] at h; cases h
      | some zs =>
        simp only [hp, hr] at h
        injection h with h1
        cases b with
        | true =>
          rw [if_pos rfl] at h1
          rw [← h1] at hy
          rcases List.mem_cons.mp hy with h2 | h3
          · subst h2
            exact ⟨List.mem_cons_self _ _, hp⟩
          · obtain ⟨h4, h5⟩ := ih zs hr h3
            exact ⟨List.mem_cons_of_mem _ h4, h5⟩
        | false =>
          rw [if_neg (by decide)] at h1
          rw [← h1] at hy
          obtain ⟨h4, h5⟩ := ih zs hr hy
          exact ⟨List.mem_cons_of_mem _ h4, h5⟩

/-- The configuration the router reads: environment settings
(`server/core/config.py`) and the runtime routing configuration. An empty
string models an unset/falsy value, mirroring Python truthiness of the
`os.getenv` results. -/
structure Config where
  ZAI_HAIKU_MODEL : Str
  ZAI_SONNET_MODEL : Str
  ZAI_OPUS_MODEL : Str
  ANTIGRAVITY_ENABLED : Bool
  ANTIGRAVITY_BASE_URL : Str
  ANTIGRAVITY_HAIKU_MODEL : Str
  ANTIGRAVITY_SONNET_MODEL : Str
  ANTIGRAVITY_OPUS_MODEL : Str
  HAIKU_PROVIDER_API_KEY : Str
  HAIKU_PROVIDER_BASE_URL : Str
  SONNET_PROVIDER_API_KEY : Str
  SONNET_PROVIDER_BASE_URL : Str
  OPUS_PROVIDER_API_KEY : Str
  OPUS_PROVIDER_BASE_URL : Str
  ENABLE_COPILOT : Bool
  GITHUB_COPILOT_BASE_URL : Str
  GITHUB_COPILOT_OPUS_MODEL : Str
  OPENROUTER_API_KEY : Str
  OPENROUTER_BASE_URL : Str
  OPENROUTER_SONNET_MODEL : Str
  OPENROUTER_HAIKU_MODEL : Str
  OPENROUTER_OPUS_MODEL : Str
  ANTHROPIC_HAIKU_MODEL : Str
  CUSTOM_PROVIDER_API_KEY : Str
  CUSTOM_PROVIDER_BASE_URL : Str
  CUSTOM_PROVIDER_SONNET_MODEL : Str
  CUSTOM_PROVIDER_HAIKU_MODEL : Str
  CUSTOM_PROVIDER_OPUS_MODEL : Str
  sonnet_provider : Str
  haiku_provider : Str
  opus_provider : Str
  sonnet_model : Str
  haiku_model : Str
  opus_model : Str

/-- The tier-detection block of `get_provider_config`
(`server/core/routing.py:39-73`), first match wins. -/
def classify_tier (cfg : Config) (model : Str) : Str :=
  let model_lower := asciiLower model
  if cfg.ZAI_HAIKU_MODEL ≠ [] ∧ model = cfg.ZAI_HAIKU_MODEL then "Haiku".data
  else if cfg.ZAI_SONNET_MODEL ≠ [] ∧ model = cfg.ZAI_SONNET_MODEL then "Sonnet".data
  else if cfg.ZAI_OPUS_MODEL ≠ [] ∧ model = cfg.ZAI_OPUS_MODEL then "Opus".data
  else if cfg.ANTIGRAVITY_HAIKU_MODEL ≠ [] ∧ model = cfg.ANTIGRAVITY_HAIKU_MODEL then
    "Haiku".data
  else if cfg.ANTIGRAVITY_SONNET_MODEL ≠ [] ∧ model = cfg.ANTIGRAVITY_SONNET_MODEL then
    "Sonnet".data
  else if cfg.ANTIGRAVITY_OPUS_MODEL ≠ [] ∧ model = cfg.ANTIGRAVITY_OPUS_MODEL then
    "Opus".data
  else if containsL model_lower "haiku".data = true then "Haiku".data
  else if containsL model_lower "sonnet".data = true then "Sonnet".data
  else if containsL model_lower "opus".data = true then "Opus".data
  else if "glm-".data.isPrefixOf model_lower = true ∨
      "zai-".data.isPrefixOf model_lower = true then
    if containsL model_lower "5".data = true ∨ containsL model_lower "flash".data = true then
      "Haiku".data
    else "Sonnet".data
  else if "gemini-".data.isPrefixOf model_lower = true then
    if containsL model_lower "flash".data = true then "Haiku".data else "Sonnet".data
  else "Unknown".data

/-- The same classification written from the specification text: identical
tests in the same order, but with the claimed fallback tier `Haiku` for
any other name. -/
def claim_classify (cfg : Config) (model : Str) : Str :=
  let model_lower := asciiLower model
  if cfg.ZAI_HAIKU_MODEL ≠ [] ∧ model = cfg.ZAI_HAIKU_MODEL then "Haiku".data
  else if cfg.ZAI_SONNET_MODEL ≠ [] ∧ model = cfg.ZAI_SONNET_MODEL then "Sonnet".data
  else if cfg.ZAI_OPUS_MODEL ≠ [] ∧ model = cfg.ZAI_OPUS_MODEL then "Opus".data
  else if cfg.ANTIGRAVITY_HAIKU_MODEL ≠ [] ∧ model = cfg.ANTIGRAVITY_HAIKU_MODEL then
    "Haiku".data
  else if cfg.ANTIGRAVITY_SONNET_MODEL ≠ [] ∧ model = cfg.ANTIGRAVITY_SONNET_MODEL then
    "Sonnet".data
  else if cfg.ANTIGRAVITY_OPUS_MODEL ≠ [] ∧ model = cfg.ANTIGRAVITY_OPUS_MODEL then
    "Opus".data
  else if containsL model_lower "haiku".data = true then "Haiku".data
  else if containsL model_lower "sonnet".data = true then "Sonnet".data
  else if containsL model_lower "opus".data = true then "Opus".data
  else if "glm-".data.isPrefixOf model_lower = true ∨
      "zai-".data.isPrefixOf model_lower = true then
    if containsL model_lower "5".data = true ∨ containsL model_lower "flash".data = true then
      "Haiku".data
    else "Sonnet".data
  else if "gemini-".data.isPrefixOf model_lower = true then
    if containsL model_lower "flash".data = true then "Haiku".data else "Sonnet".data
  else "Haiku".data

/-- The tuple returned by `get_provider_config`. -/
structure RouteResult where
  api_key : Option Str
  base_url : Option Str
  tier : Str
  translated_model : Str
  provider_type : Str

/-- Model of `get_provider_config` (`server/core/routing.py:32-186`). -/
def get_provider_config (cfg : Config) (model : Str) : RouteResult :=
  let tier := classify_tier cfg model
  if tier = "Sonnet".data then
    if cfg.sonnet_provider = "antigravity".data ∧ cfg.ANTIGRAVITY_ENABLED = true then
      ⟨none, some cfg.ANTIGRAVITY_BASE_URL, tier, cfg.sonnet_model, "antigravity".data⟩
    else if (cfg.sonnet_provider = "glm".data ∨ cfg.sonnet_provider = "zai".data) ∧
        cfg.SONNET_PROVIDER_API_KEY ≠ [] ∧ cfg.SONNET_PROVIDER_BASE_URL ≠ [] then
      ⟨some cfg.SONNET_PROVIDER_API_KEY, some cfg.SONNET_PROVIDER_BASE_URL, tier,
        if cfg.sonnet_model ≠ [] then cfg.sonnet_model else cfg.ZAI_SONNET_MODEL, "zai".data⟩
    else if cfg.sonnet_provider = "copilot".data ∧ cfg.ENABLE_COPILOT = true then
      ⟨none, some cfg.GITHUB_COPILOT_BASE_URL, tier, cfg.sonnet_model, "copilot".data⟩
    else if cfg.sonnet_provider = "openrouter".data ∧ cfg.OPENROUTER_API_KEY ≠ [] then
      ⟨some cfg.OPENROUTER_API_KEY, some cfg.OPENROUTER_BASE_URL, tier,
        cfg.OPENROUTER_SONNET_MODEL, "openrouter".data⟩
    else if cfg.sonnet_provider = "custom".data ∧ cfg.CUSTOM_PROVIDER_API_KEY ≠ [] ∧
        cfg.CUSTOM_PROVIDER_BASE_URL ≠ [] then
      ⟨some cfg.CUSTOM_PROVIDER_API_KEY, some cfg.CUSTOM_PROVIDER_BASE_URL, tier,
        cfg.CUSTOM_PROVIDER_SONNET_MODEL, "custom".data⟩
    else if cfg.sonnet_provider = "anthropic".data then
      ⟨none, none, tier, model, "anthropic".data⟩
    else ⟨none, none, tier, model, "misconfigured".data⟩
  else if tier = "Haiku".data then
    if cfg.haiku_provider = "antigravity".data ∧ cfg.ANTIGRAVITY_ENABLED = true then
      ⟨none, some cfg.ANTIGRAVITY_BASE_URL, tier, cfg.haiku_model, "antigravity".data⟩
    else if (cfg.haiku_provider = "glm".data ∨ cfg.haiku_provider = "zai".data) ∧
        cfg.HAIKU_PROVIDER_API_KEY ≠ [] ∧ cfg.HAIKU_PROVIDER_BASE_URL ≠ [] then
      ⟨some cfg.HAIKU_PROVIDER_API_KEY, some cfg.HAIKU_PROVIDER_BASE_URL, tier,
        if cfg.haiku_model ≠ [] then cfg.haiku_model else cfg.ZAI_HAIKU_MODEL, "zai".data⟩
    else if cfg.haiku_provider = "copilot".data ∧ cfg.ENABLE_COPILOT = true then
      ⟨none, some cfg.GITHUB_COPILOT_BASE_URL, tier, cfg.haiku_model, "copilot".data⟩
    else if cfg.haiku_provider = "openrouter".data ∧ cfg.OPENROUTER_API_KEY ≠ [] then
      ⟨some cfg.OPENROUTER_API_KEY, some cfg.OPENROUTER_BASE_URL, tier,
        cfg.OPENROUTER_HAIKU_MODEL, "openrouter".data⟩
    else if cfg.haiku_provider = "custom".data ∧ cfg.CUSTOM_PROVIDER_API_KEY ≠ [] ∧
        cfg.CUSTOM_PROVIDER_BASE_URL ≠ [] then
      ⟨some cfg.CUSTOM_PROVIDER_API_KEY, some cfg.CUSTOM_PROVIDER_BASE_URL, tier,
        cfg.CUSTOM_PROVIDER_HAIKU_MODEL, "custom".data⟩
    else if cfg.haiku_provider = "anthropic".data then
      ⟨none, none, tier, model, "anthropic".data⟩
    else ⟨none, none, tier, model, "misconfigured".data⟩
  else if tier = "Opus".data then
    if cfg.opus_provider = "antigravity".data ∧ cfg.ANTIGRAVITY_ENABLED = true then
      ⟨none, some cfg.ANTIGRAVITY_BASE_URL, tier, cfg.opus_model, "antigravity".data⟩
    else if (cfg.opus_provider = "glm".data ∨ cfg.opus_provider = "zai".data) ∧
        cfg.OPUS_PROVIDER_API_KEY ≠ [] ∧ cfg.OPUS_PROVIDER_BASE_URL ≠ [] then
      ⟨some cfg.OPUS_PROVIDER_API_KEY, some cfg.OPUS_PROVIDER_BASE_URL, tier,
        if cfg.opus_model ≠ [] then cfg.opus_model else cfg.ZAI_OPUS_MODEL, "zai".data⟩
    else if cfg.opus_provider = "copilot".data ∧ cfg.ENABLE_COPILOT = true then
      ⟨none, some cfg.GITHUB_COPILOT_BASE_URL, tier, cfg.GITHUB_COPILOT_OPUS_MODEL,
        "copilot".data⟩
    else if cfg.opus_provider = "openrouter".data ∧ cfg.OPENROUTER_API_KEY ≠ [] then
      ⟨some cfg.OPENROUTER_API_KEY, some cfg.OPENROUTER_BASE_URL, tier,
        cfg.OPENROUTER_OPUS_MODEL, "openrouter".data⟩
    else if cfg.opus_provider = "custom".data ∧ cfg.CUSTOM_PROVIDER_API_KEY ≠ [] ∧
        cfg.CUSTOM_PROVIDER_BASE_URL ≠ [] then
      ⟨some cfg.CUSTOM_PROVIDER_API_KEY, some cfg.CUSTOM_PROVIDER_BASE_URL, tier,
        cfg.CUSTOM_PROVIDER_OPUS_MODEL, "custom".data⟩
    else if cfg.opus_provider = "anthropic".data then
      ⟨none, none, tier, model, "anthropic".data⟩
    else ⟨none, none, tier, model, "misconfigured".data⟩
  else
    if cfg.haiku_provider = "antigravity".data ∧ cfg.ANTIGRAVITY_ENABLED = true then
      ⟨none, some cfg.ANTIGRAVITY_BASE_URL, "Haiku".data, cfg.ANTIGRAVITY_HAIKU_MODEL,
        "antigravity".data⟩
    else if (cfg.haiku_provider = "glm".data ∨ cfg.haiku_provider = "zai".data) ∧
        cfg.HAIKU_PROVIDER_API_KEY ≠ [] ∧ cfg.HAIKU_PROVIDER_BASE_URL ≠ [] then
      ⟨some cfg.HAIKU_PROVIDER_API_KEY, some cfg.HAIKU_PROVIDER_BASE_URL, "Haiku".data,
        if cfg.haiku_model ≠ [] then cfg.haiku_model else cfg.ZAI_HAIKU_MODEL, "zai".data⟩
    else if cfg.haiku_provider = "copilot".data ∧ cfg.ENABLE_COPILOT = true then
      ⟨none, some cfg.GITHUB_COPILOT_BASE_URL, "Haiku".data, cfg.haiku_model, "copilot".data⟩
    else ⟨none, none, "Unknown".data, cfg.ANTHROPIC_HAIKU_MODEL, "anthropic".data⟩

/-- `runtime_config.get(f"{tier.lower()}_provider", "unknown")` in the
dispatcher misconfiguration path. -/
def runtime_provider_lookup (cfg : Config) (tier : Str) : Str :=
  if asciiLower tier = "sonnet".data then cfg.sonnet_provider
  else if asciiLower tier = "haiku".data then cfg.haiku_provider
  else if asciiLower tier = "opus".data then cfg.opus_provider
  else "unknown".data

/-- The error message of the 503 misconfiguration response
(`endpoints.py:56-60`). -/
def misconfigured_error_message (p tier : Str) : Str :=
  "Provider '".data ++ p ++ "' is configured for ".data ++ tier ++
  (" but is missing required credentials (API key and/or base URL). " ++
   "Please set the appropriate environment variables in .env or switch " ++
   "to a different provider via the dashboard.").data

/-- The dispatcher misconfiguration bail-out (`endpoints.py:52-65`):
`some (status, body)` when the router reports `misconfigured`,
`none` when the dispatcher proceeds. -/
def proxy_misconfigured_response (cfg : Config) (model : Str) : Option (Nat × Jv) :=
  let r := get_provider_config cfg model
  if r.provider_type = "misconfigured".data then
    some (503, .obj [("error".data, .obj [
      ("type".data, .str "configuration_error".data),
      ("message".data, .str (misconfigured_error_message
        (runtime_provider_lookup cfg r.tier) r.tier))])])
  else none

/-- The classifier written from the claim text agrees with the one in the
code on every model that matches some test; they differ exactly on the
fallback, which the code labels `Unknown` and the claim labels
`Haiku`. -/
theorem classify_agrees_or_unknown (cfg : Config) (model : Str) :
    claim_classify cfg model = classify_tier cfg model ∨
    (classify_tier cfg model = "Unknown".data ∧ claim_classify cfg model = "Haiku".data) := by
  unfold claim_classify classify_tier
  by_cases h1 : cfg.ZAI_HAIKU_MODEL ≠ [] ∧ model = cfg.ZAI_HAIKU_MODEL
  · rw [if_pos h1, if_pos h1]
    exact Or.inl rfl
  rw [if_neg h1, if_neg h1]
  by_cases h2 : cfg.ZAI_SONNET_MODEL ≠ [] ∧ model = cfg.ZAI_SONNET_MODEL
  · rw [if_pos h2, if_pos h2]
    exact Or.inl rfl
  rw [if_neg h2, if_neg h2]
  by_cases h3 : cfg.ZAI_OPUS_MODEL ≠ [] ∧ model = cfg.ZAI_OPUS_MODEL
  · rw [if_pos h3, if_pos h3]
    exact Or.inl rfl
  rw [if_neg h3, if_neg h3]
  by_cases h4 : cfg.ANTIGRAVITY_HAIKU_MODEL ≠ [] ∧ model = cfg.ANTIGRAVITY_HAIKU_MODEL
  · rw [if_pos h4, if_pos h4]
    exact Or.inl rfl
  rw [if_neg h4, if_neg h4]
  by_cases h5 : cfg.ANTIGRAVITY_SONNET_MODEL ≠ [] ∧ model = cfg.ANTIGRAVITY_SONNET_MODEL
  · rw [if_pos h5, if_pos h5]
    exact Or.inl rfl
  rw [if_neg h5, if_neg h5]
  by_cases h6 : cfg.ANTIGRAVITY_OPUS_MODEL ≠ [] ∧ model = cfg.ANTIGRAVITY_OPUS_MODEL
  · rw [if_pos h6, if_pos h6]
    exact Or.inl rfl
  rw [if_neg h6, if_neg h6]
  by_cases h7 : containsL (asciiLower model) "haiku".data = true
  · rw [if_pos h7, if_pos h7]
    exact Or.inl rfl
  rw [if_neg h7, if_neg h7]
  by_cases h8 : containsL (asciiLower model) "sonnet".data = true
  · rw [if_pos h8, if_pos h8]
    exact Or.inl rfl
  rw [if_neg h8, if_neg h8]
  by_cases h9 : containsL (asciiLower model) "opus".data = true
  · rw [if_pos h9, if_pos h9]
    exact Or.inl rfl
  rw [if_neg h9, if_neg h9]
  by_cases h10 : "glm-".data.isPrefixOf (asciiLower model) = true ∨
      "zai-".data.isPrefixOf (asciiLower model) = true
  · rw [if_pos h10, if_pos h10]
    exact Or.inl rfl
  rw [if_neg h10, if_neg h10]
  by_cases h11 : "gemini-".data.isPrefixOf (asciiLower model) = true
  · rw [if_pos h11, if_pos h11]
    exact Or.inl rfl
  rw [if_neg h11, if_neg h11]
  exact Or.inr ⟨rfl, rfl⟩

/-- The outbound header map built by `proxy_to_antigravity`
(`server/core/providers.py:27-52`): fixed base headers, plus the filtered
beta header only when the filtered value is non-empty. -/
def antigravity_headers (original_headers : List (Str × Str)) (body_model : Str) :
    List (Str × Str) :=
  let base := [("Content-Type".data, "application/json".data),
               ("x-api-key".data, "test".data),
               ("anthropic-version".data, "2023-06-01".data)]
  match getA original_headers "anthropic-beta".data with
  | some beta =>
    let filtered_beta := filter_beta_header beta body_model "antigravity".data
    if filtered_beta ≠ [] then setA base "anthropic-beta".data filtered_beta else base
  | none => base

/-- The outbound header map built by `proxy_to_copilot`
(`server/core/providers.py:118-128`): the filtered beta header is stored
unconditionally, even when the filtered value is empty. -/
def copilot_headers (original_headers : List (Str × Str)) (body_model : Str) :
    List (Str × Str) :=
  let base := [("Content-Type".data, "application/json".data),
               ("Authorization".data, "Bearer dummy".data)]
  let base2 := match getA original_headers "anthropic-version".data with
    | some v => setA base "anthropic-version".data v
    | none => base
  match getA original_headers "anthropic-beta".data with
  | some beta =>
    setA base2 "anthropic-beta".data (filter_beta_header beta body_model "copilot".data)
  | none => base2

/-- On-disk OAuth credentials (`claudeAiOauth` in
`~/.claude/.credentials.json`): `.get` results, with `expiresAt`
defaulting to 0. -/
structure OauthCreds where
  accessToken : Option Str
  refreshToken : Option Str
  expiresAt : Int

/-- Outcome of the refresh HTTP call: the decoded 200 response fields, or
a non-200/network failure. -/
inductive RefreshOutcome where
  | ok (access_token : Option Str)
  | err

/-- What one call to `get_oauth_token` produces: the returned token, the
updated `_last_oauth_refresh_failure`, and whether the refresh HTTP call
was made. -/
structure OauthResult where
  token : Option Str
  lastFailure : Int
  httpCalled : Bool

/-- Model of `get_oauth_token` (`server/core/oauth.py:22-110`) for one
call at a single instant (`now_ms` in milliseconds, `now_sec` in
seconds), with the credentials file contents fixed for the duration of
the call (so the re-read under the lock sees the same data and the
"already refreshed by another thread" branch cannot fire). -/
def get_oauth_token (creds : OauthCreds) (now_ms now_sec : Int) (lastFailure : Int)
    (refresh : RefreshOutcome) : OauthResult :=
  if creds.expiresAt ≠ 0 ∧ now_ms + 300000 ≥ creds.expiresAt then
    match creds.refreshToken with
    | none => ⟨none, lastFailure, false⟩
    | some _ =>
      if now_sec - lastFailure < 60 then ⟨creds.accessToken, lastFailure, false⟩
      else
        match refresh with
        | .ok tok => ⟨tok, 0, true⟩
        | .err => ⟨none, now_sec, true⟩
  else ⟨creds.accessToken, lastFailure, false⟩

/-- Python truthiness of a JSON value (`if usage:`, `if
response_json.get("content"):`). A number is truthy iff its mantissa has
a non-zero digit. -/
def pyTruthy (v : Jv) : Bool :=
  match v with
  | .null => false
  | .bool b => b
  | .num t => (t.takeWhile fun c => c ≠ 'e' ∧ c ≠ 'E').any fun c => '1' ≤ c ∧ c ≤ '9'
  | .str s => !s.isEmpty
  | .arr l => !l.isEmpty
  | .obj f => !f.isEmpty

/-- The keep-condition of the response thinking strip
(`endpoints.py:204-207`): non-dict blocks are kept; dict blocks are kept
unless their `type` is `thinking` or `redacted_thinking`. -/
def keep_response_block (b : Jv) : Bool :=
  match b with
  | .obj bf =>
    !(typeIs (getF bf "type".data) "thinking".data ||
      typeIs (getF bf "type".data) "redacted_thinking".data)
  | _ => true

/-- Model of the non-streaming response handling for the native Anthropic
path (`endpoints.py:194-208`): a non-200 status is returned verbatim; a
200 response from the real Anthropic backend has thinking blocks
filtered out of a truthy `content`. Iterating a truthy string or dict
`content` rebuilds it from its characters or keys; a truthy number or
boolean raises (`none`). -/
def handle_anthropic_response (status : Nat) (resp : Jv) (use_real_anthropic : Bool) :
    Option (Nat × Jv) :=
  if status ≠ 200 then some (status, resp)
  else if use_real_anthropic = true then
    match resp with
    | .obj rf =>
      match getF rf "content".data with
      | some cv =>
        if pyTruthy cv = true then
          match cv with
          | .arr blocks =>
            some (200, .obj (setF rf "content".data (.arr (blocks.filter keep_response_block))))
          | .str s =>
            some (200, .obj (setF rf "content".data
              (.arr ((s.map fun c => Jv.str [c]).filter keep_response_block))))
          | .obj kf =>
            some (200, .obj (setF rf "content".data
              (.arr ((kf.map fun kv => Jv.str kv.1).filter keep_response_block))))
          | _ => none
        else some (200, .obj rf)
      | none => some (200, .obj rf)
    | _ => none
  else some (200, resp)

/-- One per-provider/model/tier usage bucket
(`services/token_tracker.py`). -/
structure Bucket where
  requests : Nat
  input_tokens : Int
  output_tokens : Int

/-- One history entry of the usage tracker. -/
structure HistEntry where
  timestamp : Str
  input_tokens : Int
  output_tokens : Int
  provider : Str
  model : Str
  tier : Str

/-- The tracker state (`TokenUsageTracker.data`). -/
structure UsageState where
  total_requests : Nat
  total_input_tokens : Int
  total_output_tokens : Int
  by_provider : List (Str × Bucket)
  by_model : List (Str × Bucket)
  by_tier : List (Str × Bucket)
  history : List HistEntry

/-- The fresh state created when no storage file exists
(`token_tracker.py:37-45`). -/
def init_usage : UsageState := ⟨0, 0, 0, [], [], [], []⟩

/-- The `if key not in bucket: insert zeros; then += ...` pattern of
`record_usage`. -/
def bump_bucket (m : List (Str × Bucket)) (k : Str) (inp out : Int) :
    List (Str × Bucket) :=
  let b := (getA m k).getD ⟨0, 0, 0⟩
  setA m k ⟨b.requests + 1, b.input_tokens + inp, b.output_tokens + out⟩

/-- The arguments of one `record_usage` call. -/
structure RecEvent where
  timestamp : Str
  input_tokens : Int
  output_tokens : Int
  provider : Str
  model : Str
  tier : Str

/-- The history entry appended for one call. -/
def entryOf (e : RecEvent) : HistEntry :=
  ⟨e.timestamp, e.input_tokens, e.output_tokens, e.provider, e.model, e.tier⟩

/-- Model of `TokenUsageTracker.record_usage`
(`services/token_tracker.py:55-126`). -/
def record_usage (st : UsageState) (e : RecEvent) : UsageState :=
  let hist1 := st.history ++ [entryOf e]
  { total_requests := st.total_requests + 1
    total_input_tokens := st.total_input_tokens + e.input_tokens
    total_output_tokens := st.total_output_tokens + e.output_tokens
    by_provider := bump_bucket st.by_provider e.provider e.input_tokens e.output_tokens
    by_model := bump_bucket st.by_model e.model e.input_tokens e.output_tokens
    by_tier := bump_bucket st.by_tier e.tier e.input_tokens e.output_tokens
    history := if hist1.length > 100 then hist1.drop 1 else hist1 }

/-- A sequence of `record_usage` calls. -/
def record_all (st : UsageState) : List RecEvent → UsageState
  | [] => st
  | e :: rest => record_all (record_usage st e) rest

/-- The six runtime-configuration keys `update_config_endpoint` is willing
to modify (`endpoints.py:390`). -/
def EDITABLE_KEYS : List Str :=
  ["sonnet_provider", "haiku_provider", "opus_provider",
   "sonnet_model", "haiku_model", "opus_model"].map String.data

/-- The accepted provider values (`endpoints.py:379`). -/
def VALID_PROVIDERS : List Str :=
  ["antigravity", "zai", "glm", "anthropic", "copilot", "openrouter", "custom"].map
    String.data

/-- The `for key, value in updates.items(): if key in [...]:
runtime_config[key] = value` loop. -/
def apply_updates (rc : List (Str × Jv)) : List (Str × Jv) → List (Str × Jv)
  | [] => rc
  | (k, v) :: rest =>
    apply_updates (if EDITABLE_KEYS.contains k then setF rc k v else rc) rest

/-- Model of `update_config_endpoint` (`server/api/endpoints.py:373-406`):
the HTTP status and the runtime configuration after the call. A non-dict
decoded body raises before any mutation and is answered with 500; an
invalid value under a provider key is answered with 400 before any
mutation; otherwise the whitelisted keys present in the body are stored
and `last_updated` is refreshed. -/
def update_config (rc : List (Str × Jv)) (updates : Jv) (now_iso : Str) :
    Nat × List (Str × Jv) :=
  match updates with
  | .obj ufs =>
    if (["sonnet_provider", "haiku_provider", "opus_provider"].map String.data).any
        (fun t => hasF ufs t && match getF ufs t with
          | some (.str p) => !(VALID_PROVIDERS.contains p)
          | _ => true) then
      (400, rc)
    else
      (200, setF (apply_updates rc ufs) "last_updated".data (.str now_iso))
  | _ => (500, rc)

theorem omap_mem (f : α → Option β) (xs : List α) (ys : List β)
    (h : omap f xs = some ys) (y : β) (hy : y ∈ ys) : ∃ x, x ∈ xs ∧ f x = some y := by
  induction xs generalizing ys with
  | nil =>
    rw [omap] at h
    injection h with h1
    rw [← h1] at hy
    cases hy
  | cons x rest ih =>
    rw [omap] at h
    cases hp : f x with
    | none =>
      cases hr : omap f rest with
      | none => simp only [hp, hr] at h; cases h
      | some zs => simp only [hp, hr] at h; cases h
    | some z =>
      cases hr : omap f rest with
      | none => simp only [hp, hr] at h; cases h
      | some zs =>
        simp only [hp, hr] at h
        injection h with h1
        rw [← h1] at hy
        rcases List.mem_cons.mp hy with h2 | h3
        · exact ⟨x, List.mem_cons_self _ _, h2 ▸ hp⟩
        · obtain ⟨x2, h4, h5⟩ := ih zs hr h3
          exact ⟨x2, List.mem_cons_of_mem _ h4, h5⟩

theorem getA_setA_self {α : Type} (fs : List (Str × α)) (k : Str) (v : α) :
    getA (setA fs k v) k = some v := by
  induction fs with
  | nil => simp [setA, getA]
  | cons kv rest ih =>
    obtain ⟨k0, v0⟩ := kv
    rw [setA]
    by_cases h : k0 = k
    · rw [if_pos h, getA, if_pos h]
    · rw [if_neg h, getA, if_neg h]
      exact ih

theorem apply_updates_not_editable (rc : List (Str × Jv)) (ufs : List (Str × Jv)) (k : Str)
    (h : EDITABLE_KEYS.contains k = false) :
    getF (apply_updates rc ufs) k = getF rc k := by
  induction ufs generalizing rc with
  | nil => rfl
  | cons kv rest ih =>
    obtain ⟨k0, v0⟩ := kv
    rw [apply_updates]
    by_cases h0 : EDITABLE_KEYS.contains k0 = true
    · rw [if_pos h0, ih]
      refine getF_setF_ne rc k0 k v0 ?_
      intro he
      rw [he] at h
      rw [h0] at h
      cases h
    · rw [if_neg h0, ih]

theorem apply_updates_not_in_body (rc : List (Str × Jv)) (ufs : List (Str × Jv)) (k : Str)
    (h : hasF ufs k = false) :
    getF (apply_updates rc ufs) k = getF rc k := by
  induction ufs generalizing rc with
  | nil => rfl
  | cons kv rest ih =>
    obtain ⟨k0, v0⟩ := kv
    rw [hasF] at h
    simp only [Bool.or_eq_false_iff] at h
    rw [apply_updates]
    by_cases h0 : EDITABLE_KEYS.contains k0 = true
    · rw [if_pos h0, ih (setF rc k0 v0) h.2]
      exact getF_setF_ne rc k0 k v0 (Ne.symm (of_decide_eq_false h.1))
    · rw [if_neg h0]
      exact ih rc h.2

theorem record_hist_step (st : UsageState) (e : RecEvent) (L : List HistEntry)
    (hh : st.history = L.drop (L.length - 100)) :
    (record_usage st e).history = (L ++ [entryOf e]).drop ((L.length + 1) - 100) := by
  show (if (st.history ++ [entryOf e]).length > 100 then
      (st.history ++ [entryOf e]).drop 1 else st.history ++ [entryOf e]) = _
  rw [hh]
  by_cases hl : L.length ≤ 100
  · have h0 : L.length - 100 = 0 := by omega
    rw [h0, List.drop_zero]
    by_cases hl2 : L.length + 1 ≤ 100
    · rw [if_neg (by simp; omega)]
      have h1 : L.length + 1 - 100 = 0 := by omega
      rw [h1, List.drop_zero]
    · have hlen : L.length = 100 := by omega
      rw [if_pos (show (L ++ [entryOf e]).length > 100 by simp [hlen])]
      have h1 : L.length + 1 - 100 = 1 := by omega
      rw [h1]
  · have hlen : (L.drop (L.length - 100)).length = 100 := by
      rw [List.length_drop]
      omega
    rw [if_pos (by simp [hlen])]
    rw [List.drop_append_of_le_length (by rw [hlen]; omega)]
    rw [List.drop_append_of_le_length (by omega)]
    rw [List.drop_drop]
    have h1 : L.length - 100 + 1 = L.length + 1 - 100 := by omega
    rw [h1]

theorem record_all_hist (rs : List RecEvent) (st : UsageState) (L : List HistEntry)
    (hh : st.history = L.drop (L.length - 100)) :
    (record_all st rs).total_requests = st.total_requests + rs.length ∧
    (record_all st rs).history = (L ++ rs.map entryOf).drop ((L.length + rs.length) - 100) := by
  induction rs generalizing st L with
  | nil =>
    rw [record_all]
    refine ⟨rfl, ?_⟩
    simp only [List.map_nil, List.append_nil, List.length_nil, Nat.add_zero]
    exact hh
  | cons e rest ih =>
    rw [record_all]
    have hst' := record_hist_step st e L hh
    have hlen' : (L ++ [entryOf e]).length - 100 = (L.length + 1) - 100 := by
      simp
    rw [← hlen'] at hst'
    obtain ⟨ht, hrest⟩ := ih (record_usage st e) (L ++ [entryOf e]) hst'
    constructor
    · rw [ht]
      show st.total_requests + 1 + rest.length = _
      simp only [List.length_cons]
      omega
    · rw [hrest]
      have he1 : (L ++ [entryOf e]) ++ rest.map entryOf = L ++ (e :: rest).map entryOf := by
        simp
      have he2 : (L ++ [entryOf e]).length + rest.length = L.length + (e :: rest).length := by
        simp
        omega
      rw [he1, he2]

/-- C9: starting from the empty usage state, after K `record_usage`
operations the history holds exactly the last `min K 100` entries in
order (FIFO eviction of the oldest entry once the cap is reached) and
`total_requests` equals K. -/
theorem c9_history_cap (rs : List RecEvent) :
    (record_all init_usage rs).total_requests = rs.length ∧
    (record_all init_usage rs).history.length = min rs.length 100 ∧
    (record_all init_usage rs).history = (rs.map entryOf).drop (rs.length - 100) := by
  obtain ⟨ht, hh⟩ := record_all_hist rs init_usage [] rfl
  refine ⟨by rw [ht]; simp [init_usage], ?_, ?_⟩
  · rw [hh]
    simp only [List.nil_append, List.length_nil, Nat.zero_add, List.length_drop,
      List.length_map]
    omega
  · rw [hh]
    simp

theorem c1_strip_message_no_thinking (m m2 : Jv) (hmsg : strip_thinking_message m = some m2)
    (mf : List (Str × Jv)) (hmf : m2 = .obj mf)
    (bs : List Jv) (hc : getF mf "content".data = some (.arr bs))
    (b : Jv) (hb : b ∈ bs) (bf : List (Str × Jv)) (hbf : b = .obj bf) :
    typeIs (getF bf "type".data) "thinking".data = false ∧
    typeIs (getF bf "type".data) "redacted_thinking".data = false := by
  cases m with
  | obj mf0 =>
    rw [strip_thinking_message] at hmsg
    cases hcc : getF mf0 "content".data with
    | none =>
      simp only [hcc] at hmsg
      injection hmsg with h1
      rw [← h1] at hmf
      injection hmf with h2
      rw [← h2] at hc
      rw [hcc] at hc
      cases hc
    | some cv =>
      cases cv with
      | arr blocks =>
        simp only [hcc] at hmsg
        cases hf : ofilter keep_block blocks with
        | none => simp only [hf] at hmsg; cases hmsg
        | some bs0 =>
          simp only [hf] at hmsg
          injection hmsg with h1
          rw [← h1] at hmf
          injection hmf with h2
          rw [← h2] at hc
          rw [getF_setF_self] at hc
          injection hc with h3
          injection h3 with h4
          rw [← h4] at hb
          obtain ⟨_, hkeep⟩ := ofilter_mem keep_block blocks bs0 hf b hb
          rw [hbf] at hkeep
          rw [keep_block] at hkeep
          injection hkeep with h5
          constructor
          · cases h6 : typeIs (getF bf "type".data) "thinking".data
            · rfl
            · rw [h6] at h5
              simp at h5
          · cases h6 : typeIs (getF bf "type".data) "redacted_thinking".data
            · rfl
            · rw [h6] at h5
              simp at h5
      | null =>
        simp only [hcc] at hmsg
        injection hmsg with h1
        rw [← h1] at hmf
        injection hmf with h2
        rw [← h2, hcc] at hc
        cases hc
      | bool x =>
        simp only [hcc] at hmsg
        injection hmsg with h1
        rw [← h1] at hmf
        injection hmf with h2
        rw [← h2, hcc] at hc
        cases hc
      | num t =>
        simp only [hcc] at hmsg
        injection hmsg with h1
        rw [← h1] at hmf
        injection hmf with h2
        rw [← h2, hcc] at hc
        cases hc
      | str s =>
        simp only [hcc] at hmsg
        injection hmsg with h1
        rw [← h1] at hmf
        injection hmf with h2
        rw [← h2, hcc] at hc
        cases hc
      | obj kvs =>
        simp only [hcc] at hmsg
        injection hmsg with h1
        rw [← h1] at hmf
        injection hmf with h2
        rw [← h2, hcc] at hc
        cases hc
  | null => cases hmsg
  | bool x => cases hmsg
  | num t => cases hmsg
  | str s => cases hmsg
  | arr xs => cases hmsg

theorem strip_messages_getF (body b1 : List (Str × Jv))
    (h : strip_thinking_messages body = some b1)
    (ms : List Jv) (hm : getF b1 "messages".data = some (.arr ms)) :
    ∃ msgs0, getF body "messages".data = some (.arr msgs0) ∧
      omap strip_thinking_message msgs0 = some ms := by
  rw [strip_thinking_messages] at h
  cases hg : getF body "messages".data with
  | none =>
    rw [hg] at h
    injection h with h1
    rw [← h1, hg] at hm
    cases hm
  | some v =>
    cases v with
    | arr msgs0 =>
      simp only [hg] at h
      cases ho : omap strip_thinking_message msgs0 with
      | none => simp only [ho] at h; cases h
      | some ms1 =>
        simp only [ho] at h
        injection h with h1
        rw [← h1, getF_setF_self] at hm
        injection hm with h2
        injection h2 with h3
        rw [← h3]
        exact ⟨msgs0, rfl, ho⟩
    | null =>
      simp only [hg] at h
      cases h
    | bool x =>
      simp only [hg] at h
      cases h
    | num t =>
      simp only [hg] at h
      cases h
    | str s =>
      simp only [hg] at h
      by_cases he : s.isEmpty = true
      · rw [if_pos he] at h
        injection h with h1
        rw [← h1, hg] at hm
        cases hm
      · rw [if_neg he] at h
        cases h
    | obj kvs =>
      simp only [hg] at h
      by_cases he : kvs.isEmpty = true
      · rw [if_pos he] at h
        injection h with h1
        rw [← h1, hg] at hm
        cases hm
      · rw [if_neg he] at h
        cases h

theorem prepare_getF_messages (body : List (Str × Jv)) (tm pt : Str)
    (out : List (Str × Jv) × Str) (h : prepare_request_body body tm pt = some out)
    (ms : List Jv) (hm : getF out.1 "messages".data = some (.arr ms)) :
    ∃ b1, strip_thinking_messages body = some b1 ∧
      getF b1 "messages".data = some (.arr ms) := by
  rw [prepare_request_body] at h
  cases hs : strip_thinking_messages body with
  | none => rw [hs] at h; cases h
  | some b1 =>
    simp only [hs] at h
    injection h with h1
    rw [← h1] at hm
    dsimp only at hm
    refine ⟨b1, rfl, ?_⟩
    rw [getF_setF_ne _ _ _ _ (by decide : ("messages".data : Str) ≠ "model".data)] at hm
    by_cases hr : (!is_reasoning_model tm pt) = true
    · rw [if_pos hr] at hm
      rw [getF_delF_ne _ _ _ (by decide : ("messages".data : Str) ≠ "effort".data)] at hm
      rw [getF_delF_ne _ _ _ (by decide : ("messages".data : Str) ≠ "thinking".data)] at hm
      exact hm
    · rw [if_neg hr] at hm
      exact hm

/-- C1: the body prepared by the dispatcher (`endpoints.py:67-94`) never
carries a `thinking` or `redacted_thinking` content block inside a
list-valued message `content`, whatever backend the request is then
routed to: the strip at lines 67-78 runs before every adapter. -/
theorem c1_no_thinking_outbound (body : List (Str × Jv)) (tm pt : Str)
    (out : List (Str × Jv) × Str) (h : prepare_request_body body tm pt = some out)
    (ms : List Jv) (hm : getF out.1 "messages".data = some (.arr ms))
    (m : Jv) (hmem : m ∈ ms) (mf : List (Str × Jv)) (hmf : m = .obj mf)
    (bs : List Jv) (hc : getF mf "content".data = some (.arr bs))
    (b : Jv) (hb : b ∈ bs) (bf : List (Str × Jv)) (hbf : b = .obj bf) :
    typeIs (getF bf "type".data) "thinking".data = false ∧
    typeIs (getF bf "type".data) "redacted_thinking".data = false := by
  obtain ⟨b1, hs, hm1⟩ := prepare_getF_messages body tm pt out h ms hm
  obtain ⟨msgs0, hg0, ho⟩ := strip_messages_getF body b1 hs ms hm1
  obtain ⟨m0, _, hm0⟩ := omap_mem strip_thinking_message msgs0 ms ho m hmem
  exact c1_strip_message_no_thinking m0 m hm0 mf hmf bs hc b hb bf hbf

/-- C4 (corrected): when the target is not reasoning-capable the
dispatcher deletes the top-level `thinking` and `effort` keys
(`endpoints.py:80-87`); but reasoning-capability as implemented by
`is_reasoning_model` excludes only the antigravity and custom backends —
it is not restricted to the anthropic backend as the claim states, so
"capable iff backend is anthropic and the name has a capable substring"
is false (see the counterexample with the zai backend). -/
theorem c4_reasoning_strip (body : List (Str × Jv)) (tm pt : Str)
    (out : List (Str × Jv) × Str) (h : prepare_request_body body tm pt = some out)
    (hnr : is_reasoning_model tm pt = false) :
    getF out.1 "thinking".data = none ∧ getF out.1 "effort".data = none ∧
    (∀ p2 m2, (p2 = "antigravity".data ∨ p2 = "custom".data) →
      is_reasoning_model m2 p2 = false) := by
  rw [prepare_request_body] at h
  cases hs : strip_thinking_messages body with
  | none => rw [hs] at h; cases h
  | some b1 =>
    simp only [hs] at h
    injection h with h1
    have hout : out.1 = setF (if (!is_reasoning_model tm pt) = true then
        delF (delF b1 "thinking".data) "effort".data else b1) "model".data
        (.str (if containsL tm "[1m]".data = true then replaceL tm "[1m]".data []
          else tm)) := by
      rw [← h1]
    rw [hout]
    rw [if_pos (by rw [hnr]; rfl)]
    refine ⟨?_, ?_, ?_⟩
    · rw [getF_setF_ne _ _ _ _ (by decide : ("thinking".data : Str) ≠ "model".data)]
      rw [getF_delF_ne _ _ _ (by decide : ("thinking".data : Str) ≠ "effort".data)]
      exact getF_delF_self b1 "thinking".data
    · rw [getF_setF_ne _ _ _ _ (by decide : ("effort".data : Str) ≠ "model".data)]
      exact getF_delF_self (delF b1 "thinking".data) "effort".data
    · intro p2 m2 hp2
      rw [is_reasoning_model, if_pos hp2]

/-- C5: both payload transformations are idempotent — rerunning the
custom-backend whitelist sanitization on its own output reproduces that
output exactly, and rerunning the streaming SSE tool-input repair on an
already repaired byte stream leaves it unchanged. -/
theorem c5_transformations_idempotent (x y : Jv) (raw_body : Str)
    (h : sanitize_for_custom_provider x = some y) :
    sanitize_for_custom_provider y = some y ∧
    fix_streaming_tool_inputs (fix_streaming_tool_inputs raw_body) =
      fix_streaming_tool_inputs raw_body :=
  ⟨sanitize_for_custom_provider_idem x y h, fix_streaming_tool_inputs_idem raw_body⟩

/-- The disjunction of the branch guards of the Sonnet arm of
`get_provider_config` (routing.py:88-107): the configured sonnet provider
has all its prerequisites. -/
abbrev sonnet_prereqs_ok (cfg : Config) : Prop :=
  (cfg.sonnet_provider = "antigravity".data ∧ cfg.ANTIGRAVITY_ENABLED = true) ∨
  ((cfg.sonnet_provider = "glm".data ∨ cfg.sonnet_provider = "zai".data) ∧
    cfg.SONNET_PROVIDER_API_KEY ≠ [] ∧ cfg.SONNET_PROVIDER_BASE_URL ≠ []) ∨
  (cfg.sonnet_provider = "copilot".data ∧ cfg.ENABLE_COPILOT = true) ∨
  (cfg.sonnet_provider = "openrouter".data ∧ cfg.OPENROUTER_API_KEY ≠ []) ∨
  (cfg.sonnet_provider = "custom".data ∧ cfg.CUSTOM_PROVIDER_API_KEY ≠ [] ∧
    cfg.CUSTOM_PROVIDER_BASE_URL ≠ [])

/-- The branch guards of the Haiku arm (routing.py:119-138). -/
abbrev haiku_prereqs_ok (cfg : Config) : Prop :=
  (cfg.haiku_provider = "antigravity".data ∧ cfg.ANTIGRAVITY_ENABLED = true) ∨
  ((cfg.haiku_provider = "glm".data ∨ cfg.haiku_provider = "zai".data) ∧
    cfg.HAIKU_PROVIDER_API_KEY ≠ [] ∧ cfg.HAIKU_PROVIDER_BASE_URL ≠ []) ∨
  (cfg.haiku_provider = "copilot".data ∧ cfg.ENABLE_COPILOT = true) ∨
  (cfg.haiku_provider = "openrouter".data ∧ cfg.OPENROUTER_API_KEY ≠ []) ∨
  (cfg.haiku_provider = "custom".data ∧ cfg.CUSTOM_PROVIDER_API_KEY ≠ [] ∧
    cfg.CUSTOM_PROVIDER_BASE_URL ≠ [])

/-- The branch guards of the Opus arm (routing.py:148-167). -/
abbrev opus_prereqs_ok (cfg : Config) : Prop :=
  (cfg.opus_provider = "antigravity".data ∧ cfg.ANTIGRAVITY_ENABLED = true) ∨
  ((cfg.opus_provider = "glm".data ∨ cfg.opus_provider = "zai".data) ∧
    cfg.OPUS_PROVIDER_API_KEY ≠ [] ∧ cfg.OPUS_PROVIDER_BASE_URL ≠ []) ∨
  (cfg.opus_provider = "copilot".data ∧ cfg.ENABLE_COPILOT = true) ∨
  (cfg.opus_provider = "openrouter".data ∧ cfg.OPENROUTER_API_KEY ≠ []) ∨
  (cfg.opus_provider = "custom".data ∧ cfg.CUSTOM_PROVIDER_API_KEY ≠ [] ∧
    cfg.CUSTOM_PROVIDER_BASE_URL ≠ [])

/-- C2 (corrected): for every model classified into a known tier
(Sonnet, Haiku or Opus) and every configuration in which that tier is
not set to anthropic and its configured provider is missing any of its
prerequisites — antigravity or copilot without their enable flags, glm
or zai without the tier API key or base URL, openrouter without its
API key, custom without its API key or base URL, or any unrecognized
provider value — the router returns `misconfigured` instead of falling
through to another backend, and the dispatcher then answers 503 with a
body whose `error.type` is `"configuration_error"`. However, for a
model that falls into the `Unknown` tier the router silently walks the
haiku provider chain and ends at the anthropic backend instead of
reporting `misconfigured` (see the counterexample). -/
theorem c2_misconfigured_503 (cfg : Config) (model : Str) :
    (classify_tier cfg model = "Sonnet".data → ¬ sonnet_prereqs_ok cfg →
      cfg.sonnet_provider ≠ "anthropic".data →
      (get_provider_config cfg model).provider_type = "misconfigured".data) ∧
    (classify_tier cfg model = "Haiku".data → ¬ haiku_prereqs_ok cfg →
      cfg.haiku_provider ≠ "anthropic".data →
      (get_provider_config cfg model).provider_type = "misconfigured".data) ∧
    (classify_tier cfg model = "Opus".data → ¬ opus_prereqs_ok cfg →
      cfg.opus_provider ≠ "anthropic".data →
      (get_provider_config cfg model).provider_type = "misconfigured".data) ∧
    ((get_provider_config cfg model).provider_type = "misconfigured".data →
      proxy_misconfigured_response cfg model = some (503, .obj [("error".data, .obj [
        ("type".data, .str "configuration_error".data),
        ("message".data, .str (misconfigured_error_message
          (runtime_provider_lookup cfg (get_provider_config cfg model).tier)
          (get_provider_config cfg model).tier))])])) := by
  refine ⟨?_, ?_, ?_, ?_⟩
  · intro h1 hok hanth
    rw [get_provider_config, if_pos h1]
    rw [if_neg (fun hc => hok (Or.inl hc))]
    rw [if_neg (fun hc => hok (Or.inr (Or.inl hc)))]
    rw [if_neg (fun hc => hok (Or.inr (Or.inr (Or.inl hc))))]
    rw [if_neg (fun hc => hok (Or.inr (Or.inr (Or.inr (Or.inl hc)))))]
    rw [if_neg (fun hc => hok (Or.inr (Or.inr (Or.inr (Or.inr hc)))))]
    rw [if_neg hanth]
  · intro h1 hok hanth
    rw [get_provider_config, if_neg (by rw [h1]; decide), if_pos h1]
    rw [if_neg (fun hc => hok (Or.inl hc))]
    rw [if_neg (fun hc => hok (Or.inr (Or.inl hc)))]
    rw [if_neg (fun hc => hok (Or.inr (Or.inr (Or.inl hc))))]
    rw [if_neg (fun hc => hok (Or.inr (Or.inr (Or.inr (Or.inl hc)))))]
    rw [if_neg (fun hc => hok (Or.inr (Or.inr (Or.inr (Or.inr hc)))))]
    rw [if_neg hanth]
  · intro h1 hok hanth
    rw [get_provider_config, if_neg (by rw [h1]; decide), if_neg (by rw [h1]; decide),
      if_pos h1]
    rw [if_neg (fun hc => hok (Or.inl hc))]
    rw [if_neg (fun hc => hok (Or.inr (Or.inl hc)))]
    rw [if_neg (fun hc => hok (Or.inr (Or.inr (Or.inl hc))))]
    rw [if_neg (fun hc => hok (Or.inr (Or.inr (Or.inr (Or.inl hc)))))]
    rw [if_neg (fun hc => hok (Or.inr (Or.inr (Or.inr (Or.inr hc)))))]
    rw [if_neg hanth]
  · intro hmis
    rw [proxy_misconfigured_response]
    rw [if_pos hmis]

/-- C6 (corrected): for a non-reasoning-capable target the beta filter
splits the header on commas, strips each token, drops every token
containing "thinking" or "effort" case-insensitively, and rejoins the
surviving tokens in their original order; the antigravity adapter omits
the `anthropic-beta` header when the filtered value is empty, but the
copilot adapter stores the filtered value unconditionally — an empty
filtered result still produces an (empty) outbound `anthropic-beta`
header there, contradicting the claimed unconditional omission (see the
counterexample). -/
theorem c6_beta_filter (beta model pt : Str) (hdrs : List (Str × Str))
    (hnr : is_reasoning_model model pt = false) (hne : beta ≠ []) :
    (filter_beta_header beta model pt = joinWith ",".data
      (((splitOnChar ',' beta).map trimL).filter fun part =>
        !containsL (asciiLower part) "thinking".data &&
          !containsL (asciiLower part) "effort".data)) ∧
    ((((splitOnChar ',' beta).map trimL).filter fun part =>
        !containsL (asciiLower part) "thinking".data &&
          !containsL (asciiLower part) "effort".data).Sublist
      ((splitOnChar ',' beta).map trimL)) ∧
    (∀ part ∈ ((splitOnChar ',' beta).map trimL).filter fun part =>
        !containsL (asciiLower part) "thinking".data &&
          !containsL (asciiLower part) "effort".data,
      containsL (asciiLower part) "thinking".data = false ∧
      containsL (asciiLower part) "effort".data = false) ∧
    (getA hdrs "anthropic-beta".data = some beta →
      filter_beta_header beta model "antigravity".data = [] →
      hasA (antigravity_headers hdrs model) "anthropic-beta".data = false) ∧
    (getA hdrs "anthropic-beta".data = some beta →
      getA (copilot_headers hdrs model) "anthropic-beta".data =
        some (filter_beta_header beta model "copilot".data)) := by
  refine ⟨?_, List.filter_sublist _, ?_, ?_, ?_⟩
  · rw [filter_beta_header, if_neg hne]
    simp [hnr]
  · intro part hp
    have := List.mem_filter.mp hp
    have h2 := this.2
    simp only [Bool.and_eq_true, Bool.not_eq_true'] at h2
    exact h2
  · intro hb hemp
    simp only [antigravity_headers, hb]
    rw [if_neg (fun hc => hc hemp)]
    decide
  · intro hb
    simp only [copilot_headers, hb]
    cases hv : getA hdrs "anthropic-version".data with
    | none =>
      simp only [hv]
      exact getA_setA_self _ _ _
    | some v =>
      simp only [hv]
      exact getA_setA_self _ _ _

/-- C7 (corrected): when the stored token is expiring, a failed refresh
records the failure time and returns no token; within the next 60
seconds no refresh HTTP call is made, and when a refresh token is on
disk the stored (possibly expired) access token is returned — but when
the credentials hold no refresh token, the call returns `None` before
ever reaching the cooldown check, not the stored access token as the
claim states (see the counterexample). -/
theorem c7_oauth_cooldown (creds : OauthCreds) (now_ms now_sec lastFailure : Int)
    (refresh : RefreshOutcome)
    (hexp : creds.expiresAt ≠ 0 ∧ now_ms + 300000 ≥ creds.expiresAt) :
    ((∃ t, creds.refreshToken = some t) → ¬(now_sec - lastFailure < 60) →
      refresh = .err →
      get_oauth_token creds now_ms now_sec lastFailure refresh =
        ⟨none, now_sec, true⟩) ∧
    ((∃ t, creds.refreshToken = some t) → now_sec - lastFailure < 60 →
      get_oauth_token creds now_ms now_sec lastFailure refresh =
        ⟨creds.accessToken, lastFailure, false⟩) ∧
    (creds.refreshToken = none →
      get_oauth_token creds now_ms now_sec lastFailure refresh =
        ⟨none, lastFailure, false⟩) := by
  refine ⟨?_, ?_, ?_⟩
  · intro hrt hcool herr
    obtain ⟨t, ht⟩ := hrt
    rw [get_oauth_token.eq_def, if_pos hexp]
    simp only [ht]
    rw [if_neg hcool, herr]
  · intro hrt hcool
    obtain ⟨t, ht⟩ := hrt
    rw [get_oauth_token.eq_def, if_pos hexp]
    simp only [ht]
    rw [if_pos hcool]
  · intro hrt
    rw [get_oauth_token.eq_def, if_pos hexp]
    simp only [hrt]

/-- C8 (corrected): for the native Anthropic path the adapter strips all
`thinking`/`redacted_thinking` blocks from a truthy `content` list —
but only when the upstream status is exactly 200; every other status,
including other 2xx statuses such as 202, is returned verbatim together
with its body, thinking blocks included (see the counterexample). -/
theorem c8_response_strip (status : Nat) (resp : Jv) (use_real_anthropic : Bool)
    (rf : List (Str × Jv)) (blocks : List Jv) :
    (status ≠ 200 →
      handle_anthropic_response status resp use_real_anthropic = some (status, resp)) ∧
    (status = 200 → use_real_anthropic = true → resp = .obj rf →
      getF rf "content".data = some (.arr blocks) → pyTruthy (.arr blocks) = true →
      handle_anthropic_response status resp use_real_anthropic =
        some (200, .obj (setF rf "content".data
          (.arr (blocks.filter keep_response_block))))) ∧
    (∀ b ∈ blocks.filter keep_response_block, ∀ bf, b = .obj bf →
      typeIs (getF bf "type".data) "thinking".data = false ∧
      typeIs (getF bf "type".data) "redacted_thinking".data = false) := by
  refine ⟨?_, ?_, ?_⟩
  · intro hne
    rw [handle_anthropic_response.eq_def, if_pos hne]
  · intro h200 hur hobj hcon htr
    subst h200
    subst hobj
    rw [handle_anthropic_response.eq_def, if_neg (fun hc => hc rfl), hur, if_pos rfl]
    simp only [hcon]
    rw [if_pos htr]
  · intro b hb bf hbf
    have h2 := (List.mem_filter.mp hb).2
    rw [hbf, keep_response_block] at h2
    simp only [Bool.not_eq_true', Bool.or_eq_false_iff] at h2
    exact h2

/-- C10 (corrected): a config update with a valid body modifies only the
whitelisted keys that appear in the body plus `last_updated`, ignoring
unknown keys; but `last_updated` is not "always refreshed" — a body
carrying an invalid provider value is rejected with 400 before any
mutation, leaving every runtime-configuration entry, `last_updated`
included, unchanged (see the counterexample). -/
theorem c10_config_update (rc : List (Str × Jv)) (ufs : List (Str × Jv)) (now_iso : Str) :
    (((["sonnet_provider", "haiku_provider", "opus_provider"].map String.data).any
        (fun t => hasF ufs t && match getF ufs t with
          | some (.str p) => !(VALID_PROVIDERS.contains p)
          | _ => true)) = true →
      update_config rc (.obj ufs) now_iso = (400, rc)) ∧
    (((["sonnet_provider", "haiku_provider", "opus_provider"].map String.data).any
        (fun t => hasF ufs t && match getF ufs t with
          | some (.str p) => !(VALID_PROVIDERS.contains p)
          | _ => true)) = false →
      (update_config rc (.obj ufs) now_iso).1 = 200 ∧
      getF (update_config rc (.obj ufs) now_iso).2 "last_updated".data =
        some (.str now_iso) ∧
      (∀ k, hasF ufs k = false → k ≠ "last_updated".data →
        getF (update_config rc (.obj ufs) now_iso).2 k = getF rc k) ∧
      (∀ k, EDITABLE_KEYS.contains k = false → k ≠ "last_updated".data →
        getF (update_config rc (.obj ufs) now_iso).2 k = getF rc k)) ∧
    (∀ updates : Jv, (∀ kvs, updates ≠ .obj kvs) →
      update_config rc updates now_iso = (500, rc)) := by
  refine ⟨?_, ?_, ?_⟩
  · intro hbad
    rw [update_config, if_pos hbad]
  · intro hok
    rw [update_config, if_neg (by rw [hok]; exact fun hc => by cases hc)]
    refine ⟨rfl, ?_, ?_, ?_⟩
    · exact getF_setF_self _ _ _
    · intro k hk hne
      show getF (setF (apply_updates rc ufs) "last_updated".data (.str now_iso)) k =
        getF rc k
      rw [getF_setF_ne _ _ _ _ hne]
      exact apply_updates_not_in_body rc ufs k hk
    · intro k hk hne
      show getF (setF (apply_updates rc ufs) "last_updated".data (.str now_iso)) k =
        getF rc k
      rw [getF_setF_ne _ _ _ _ hne]
      exact apply_updates_not_editable rc ufs k hk
  · intro updates hno
    cases updates with
    | obj kvs => exact absurd rfl (hno kvs)
    | null => rfl
    | bool b => rfl
    | num t => rfl
    | str s => rfl
    | arr xs => rfl

/-- A concrete configuration: every tier provider set to `openrouter`
while `OPENROUTER_API_KEY` is unset (with the opus tier on anthropic). -/
def cfgC2w : Config :=
  { ZAI_HAIKU_MODEL := [], ZAI_SONNET_MODEL := [], ZAI_OPUS_MODEL := []
    ANTIGRAVITY_ENABLED := false
    ANTIGRAVITY_BASE_URL := "http://localhost:8081".data
    ANTIGRAVITY_HAIKU_MODEL := [], ANTIGRAVITY_SONNET_MODEL := []
    ANTIGRAVITY_OPUS_MODEL := []
    HAIKU_PROVIDER_API_KEY := [], HAIKU_PROVIDER_BASE_URL := []
    SONNET_PROVIDER_API_KEY := [], SONNET_PROVIDER_BASE_URL := []
    OPUS_PROVIDER_API_KEY := [], OPUS_PROVIDER_BASE_URL := []
    ENABLE_COPILOT := false
    GITHUB_COPILOT_BASE_URL := [], GITHUB_COPILOT_OPUS_MODEL := []
    OPENROUTER_API_KEY := [], OPENROUTER_BASE_URL := []
    OPENROUTER_SONNET_MODEL := [], OPENROUTER_HAIKU_MODEL := []
    OPENROUTER_OPUS_MODEL := []
    ANTHROPIC_HAIKU_MODEL := "claude-3-5-haiku-20241022".data
    CUSTOM_PROVIDER_API_KEY := [], CUSTOM_PROVIDER_BASE_URL := []
    CUSTOM_PROVIDER_SONNET_MODEL := [], CUSTOM_PROVIDER_HAIKU_MODEL := []
    CUSTOM_PROVIDER_OPUS_MODEL := []
    sonnet_provider := "openrouter".data, haiku_provider := "openrouter".data
    opus_provider := "anthropic".data
    sonnet_model := [], haiku_model := [], opus_model := [] }

theorem c2_witness :
    classify_tier cfgC2w "claude-sonnet-4-5".data = "Sonnet".data ∧
    (get_provider_config cfgC2w "claude-sonnet-4-5".data).provider_type =
      "misconfigured".data :=
  ⟨by decide,
    (c2_misconfigured_503 cfgC2w "claude-sonnet-4-5".data).1 (by decide) (by decide)
      (by decide)⟩

theorem c2_counterexample :
    classify_tier cfgC2w "mystery-model".data = "Unknown".data ∧
    claim_classify cfgC2w "mystery-model".data = "Haiku".data ∧
    cfgC2w.haiku_provider = "openrouter".data ∧
    cfgC2w.OPENROUTER_API_KEY = [] ∧
    (get_provider_config cfgC2w "mystery-model".data).provider_type = "anthropic".data ∧
    (get_provider_config cfgC2w "mystery-model".data).provider_type ≠
      "misconfigured".data := by
  refine ⟨by decide, by decide, rfl, rfl, by decide, by decide⟩

/-- A concrete request body with one thinking and one text block. -/
def c1body : List (Str × Jv) :=
  [("messages".data, .arr [.obj [("role".data, .str "user".data),
    ("content".data, .arr [.obj [("type".data, .str "thinking".data)],
                           .obj [("type".data, .str "text".data)]])]])]

/-- The message produced for `c1body` by the dispatcher strip. -/
def c1msg_out : Jv :=
  .obj [("role".data, .str "user".data),
        ("content".data, .arr [.obj [("type".data, .str "text".data)]])]

/-- The prepared body for `c1body`. -/
def c1out : List (Str × Jv) :=
  [("messages".data, .arr [c1msg_out]), ("model".data, .str "glm-4.7".data)]

theorem c1_witness :
    typeIs (getF [("type".data, Jv.str "text".data)] "type".data) "thinking".data = false ∧
    typeIs (getF [("type".data, Jv.str "text".data)] "type".data)
      "redacted_thinking".data = false :=
  c1_no_thinking_outbound c1body "glm-4.7".data "zai".data (c1out, "glm-4.7".data) rfl
    [c1msg_out] rfl c1msg_out (List.mem_singleton_self _)
    [("role".data, .str "user".data),
     ("content".data, .arr [.obj [("type".data, .str "text".data)]])] rfl
    [.obj [("type".data, .str "text".data)]] rfl
    (.obj [("type".data, .str "text".data)]) (List.mem_singleton_self _)
    [("type".data, .str "text".data)] rfl

theorem c4_witness :
    is_reasoning_model "glm-4.7".data "zai".data = false ∧
    getF [("model".data, Jv.str "glm-4.7".data)] "thinking".data = none ∧
    getF [("model".data, Jv.str "glm-4.7".data)] "effort".data = none := by
  have h := c4_reasoning_strip [("thinking".data, Jv.null)] "glm-4.7".data "zai".data
    ([("model".data, Jv.str "glm-4.7".data)], "glm-4.7".data) rfl (by decide)
  exact ⟨by decide, h.1, h.2.1⟩

theorem c4_counterexample :
    is_reasoning_model "claude-sonnet-4-5".data "zai".data = true ∧
    ("zai".data : Str) ≠ "anthropic".data := by decide

/-- The concrete request body of the sanitizer example. -/
def c5x : Jv :=
  .obj [("model".data, .str "m".data), ("metadata".data, .null),
        ("messages".data, .arr [.obj [("role".data, .str "user".data),
          ("cache_control".data, .null),
          ("content".data, .arr [.obj [("type".data, .str "tool_use".data),
            ("id".data, .str "i".data),
            ("input".data, .str "\x7b\"a\": 1\x7d".data)]])]])]

/-- The sanitized form of `c5x`. -/
def c5y : Jv :=
  .obj [("model".data, .str "m".data),
        ("messages".data, .arr [.obj [("role".data, .str "user".data),
          ("content".data, .arr [.obj [("type".data, .str "tool_use".data),
            ("id".data, .str "i".data),
            ("input".data, .obj [("a".data, .num "1".data)])]])]])]

theorem c5_witness :
    sanitize_for_custom_provider c5y = some c5y ∧
    fix_streaming_tool_inputs (fix_streaming_tool_inputs "data: x".data) =
      fix_streaming_tool_inputs "data: x".data :=
  c5_transformations_idempotent c5x c5y "data: x".data rfl

theorem c6_witness :
    is_reasoning_model "gpt-4".data "copilot".data = false ∧
    getA (copilot_headers [("anthropic-beta".data,
        "interleaved-thinking-2025-05-14".data)] "gpt-4".data) "anthropic-beta".data =
      some (filter_beta_header "interleaved-thinking-2025-05-14".data "gpt-4".data
        "copilot".data) :=
  ⟨by decide, (c6_beta_filter "interleaved-thinking-2025-05-14".data "gpt-4".data
      "copilot".data [("anthropic-beta".data, "interleaved-thinking-2025-05-14".data)]
      (by decide) (by decide)).2.2.2.2 rfl⟩

theorem c6_counterexample :
    filter_beta_header "interleaved-thinking-2025-05-14".data "gpt-4".data
      "copilot".data = [] ∧
    getA (copilot_headers [("anthropic-beta".data,
        "interleaved-thinking-2025-05-14".data)] "gpt-4".data) "anthropic-beta".data =
      some [] ∧
    hasA (copilot_headers [("anthropic-beta".data,
        "interleaved-thinking-2025-05-14".data)] "gpt-4".data) "anthropic-beta".data =
      true := by
  refine ⟨by decide, by decide, by decide⟩

theorem c7_witness :
    get_oauth_token ⟨some "tok".data, some "r".data, 1000⟩ 0 10 0 .err =
      ⟨some "tok".data, 0, false⟩ :=
  (c7_oauth_cooldown ⟨some "tok".data, some "r".data, 1000⟩ 0 10 0 .err
    (by decide)).2.1 ⟨"r".data, rfl⟩ (by decide)

theorem c7_counterexample :
    get_oauth_token ⟨some "abc".data, none, 1000⟩ 0 10 0 .err = ⟨none, 0, false⟩ ∧
    (⟨some "abc".data, none, 1000⟩ : OauthCreds).accessToken = some "abc".data ∧
    (none : Option Str) ≠ some "abc".data := by
  refine ⟨rfl, rfl, by decide⟩

theorem c8_witness :
    handle_anthropic_response 200 (.obj [("content".data, .arr
        [.obj [("type".data, .str "thinking".data)],
         .obj [("type".data, .str "text".data)]])]) true =
      some (200, .obj (setF [("content".data, .arr
        [.obj [("type".data, .str "thinking".data)],
         .obj [("type".data, .str "text".data)]])] "content".data
        (.arr ([Jv.obj [("type".data, .str "thinking".data)],
                Jv.obj [("type".data, .str "text".data)]].filter keep_response_block)))) :=
  (c8_response_strip 200 (.obj [("content".data, .arr
      [.obj [("type".data, .str "thinking".data)],
       .obj [("type".data, .str "text".data)]])]) true
    [("content".data, .arr [.obj [("type".data, .str "thinking".data)],
      .obj [("type".data, .str "text".data)]])]
    [.obj [("type".data, .str "thinking".data)],
     .obj [("type".data, .str "text".data)]]).2.1 rfl rfl rfl rfl (by decide)

theorem c8_counterexample :
    handle_anthropic_response 202 (.obj [("content".data, .arr
        [.obj [("type".data, .str "thinking".data)]])]) true =
      some (202, .obj [("content".data, .arr
        [.obj [("type".data, .str "thinking".data)]])]) ∧
    200 ≤ 202 ∧ 202 < 300 ∧
    typeIs (getF [("type".data, Jv.str "thinking".data)] "type".data)
      "thinking".data = true := by
  refine ⟨rfl, by decide, by decide, rfl⟩

/-- A concrete runtime configuration. -/
def c10rc : List (Str × Jv) :=
  [("sonnet_provider".data, .str "zai".data), ("last_updated".data, .str "old".data)]

/-- A concrete update body: one whitelisted key and one unknown key. -/
def c10ufs : List (Str × Jv) :=
  [("sonnet_model".data, .str "glm-4.7".data), ("junk".data, .null)]

theorem c10_witness :
    (update_config c10rc (.obj c10ufs) "2026-01-01T00:00:00".data).1 = 200 ∧
    getF (update_config c10rc (.obj c10ufs) "2026-01-01T00:00:00".data).2
      "last_updated".data = some (.str "2026-01-01T00:00:00".data) ∧
    getF (update_config c10rc (.obj c10ufs) "2026-01-01T00:00:00".data).2 "junk".data =
      getF c10rc "junk".data := by
  have h := (c10_config_update c10rc c10ufs "2026-01-01T00:00:00".data).2.1 (by decide)
  exact ⟨h.1, h.2.1, h.2.2.2 "junk".data (by decide) (by decide)⟩

theorem c10_counterexample :
    update_config c10rc (.obj [("sonnet_provider".data, Jv.str "bogus".data)])
      "new".data = (400, c10rc) ∧
    getF c10rc "last_updated".data = some (.str "old".data) := by
  refine ⟨rfl, rfl⟩

/-- C3 (corrected): tier classification applies the claimed tests in the
claimed order with first match winning, but the final clause "any other
name falls back to haiku" is false: an unmatched name is classified
`Unknown`, and the `Unknown` routing path (routing.py:176-186) is not
the Haiku-tier treatment — it has no openrouter, custom, explicit
anthropic or misconfigured arm, so for example a configuration whose
haiku provider is openrouter (with its key present) sends Haiku-tier
models to openrouter but unmatched models to anthropic (see the
counterexample). -/
theorem c3_fallback_divergence (cfg : Config) (model : Str) :
    (claim_classify cfg model = classify_tier cfg model ∨
      (classify_tier cfg model = "Unknown".data ∧
        claim_classify cfg model = "Haiku".data)) ∧
    (classify_tier cfg model = "Haiku".data → cfg.haiku_provider = "openrouter".data →
      cfg.OPENROUTER_API_KEY ≠ [] →
      (get_provider_config cfg model).provider_type = "openrouter".data) ∧
    (classify_tier cfg model = "Unknown".data →
      (get_provider_config cfg model).provider_type ≠ "openrouter".data ∧
      (get_provider_config cfg model).provider_type ≠ "custom".data ∧
      (get_provider_config cfg model).provider_type ≠ "misconfigured".data) := by
  refine ⟨classify_agrees_or_unknown cfg model, ?_, ?_⟩
  · intro h1 h2 h3
    rw [get_provider_config, if_neg (by rw [h1]; decide), if_pos h1, h2]
    rw [if_neg (fun hc => absurd hc.1 (by decide))]
    rw [if_neg (fun hc => by rcases hc.1 with h | h <;> exact absurd h (by decide))]
    rw [if_neg (fun hc => absurd hc.1 (by decide))]
    rw [if_pos ⟨rfl, h3⟩]
  · intro h1
    rw [get_provider_config, if_neg (by rw [h1]; decide), if_neg (by rw [h1]; decide),
      if_neg (by rw [h1]; decide)]
    by_cases g1 : cfg.haiku_provider = "antigravity".data ∧ cfg.ANTIGRAVITY_ENABLED = true
    · rw [if_pos g1]
      exact ⟨(by decide : ("antigravity".data : Str) ≠ "openrouter".data),
        (by decide : ("antigravity".data : Str) ≠ "custom".data),
        (by decide : ("antigravity".data : Str) ≠ "misconfigured".data)⟩
    rw [if_neg g1]
    by_cases g2 : (cfg.haiku_provider = "glm".data ∨ cfg.haiku_provider = "zai".data) ∧
        cfg.HAIKU_PROVIDER_API_KEY ≠ [] ∧ cfg.HAIKU_PROVIDER_BASE_URL ≠ []
    · rw [if_pos g2]
      exact ⟨(by decide : ("zai".data : Str) ≠ "openrouter".data),
        (by decide : ("zai".data : Str) ≠ "custom".data),
        (by decide : ("zai".data : Str) ≠ "misconfigured".data)⟩
    rw [if_neg g2]
    by_cases g3 : cfg.haiku_provider = "copilot".data ∧ cfg.ENABLE_COPILOT = true
    · rw [if_pos g3]
      exact ⟨(by decide : ("copilot".data : Str) ≠ "openrouter".data),
        (by decide : ("copilot".data : Str) ≠ "custom".data),
        (by decide : ("copilot".data : Str) ≠ "misconfigured".data)⟩
    rw [if_neg g3]
    exact ⟨(by decide : ("anthropic".data : Str) ≠ "openrouter".data),
      (by decide : ("anthropic".data : Str) ≠ "custom".data),
      (by decide : ("anthropic".data : Str) ≠ "misconfigured".data)⟩

/-- A configuration whose haiku provider is openrouter with its API key
present. -/
def cfgC3 : Config :=
  { ZAI_HAIKU_MODEL := [], ZAI_SONNET_MODEL := [], ZAI_OPUS_MODEL := []
    ANTIGRAVITY_ENABLED := false
    ANTIGRAVITY_BASE_URL := "http://localhost:8081".data
    ANTIGRAVITY_HAIKU_MODEL := [], ANTIGRAVITY_SONNET_MODEL := []
    ANTIGRAVITY_OPUS_MODEL := []
    HAIKU_PROVIDER_API_KEY := [], HAIKU_PROVIDER_BASE_URL := []
    SONNET_PROVIDER_API_KEY := [], SONNET_PROVIDER_BASE_URL := []
    OPUS_PROVIDER_API_KEY := [], OPUS_PROVIDER_BASE_URL := []
    ENABLE_COPILOT := false
    GITHUB_COPILOT_BASE_URL := [], GITHUB_COPILOT_OPUS_MODEL := []
    OPENROUTER_API_KEY := "k".data
    OPENROUTER_BASE_URL := "https://openrouter.ai/api".data
    OPENROUTER_SONNET_MODEL := [], OPENROUTER_HAIKU_MODEL := "or-haiku".data
    OPENROUTER_OPUS_MODEL := []
    ANTHROPIC_HAIKU_MODEL := "claude-3-5-haiku-20241022".data
    CUSTOM_PROVIDER_API_KEY := [], CUSTOM_PROVIDER_BASE_URL := []
    CUSTOM_PROVIDER_SONNET_MODEL := [], CUSTOM_PROVIDER_HAIKU_MODEL := []
    CUSTOM_PROVIDER_OPUS_MODEL := []
    sonnet_provider := "anthropic".data, haiku_provider := "openrouter".data
    opus_provider := "anthropic".data
    sonnet_model := [], haiku_model := [], opus_model := [] }

theorem c3_witness :
    (get_provider_config cfgC3 "my-haiku".data).provider_type = "openrouter".data :=
  (c3_fallback_divergence cfgC3 "my-haiku".data).2.1 (by decide) rfl (by decide)

theorem c3_counterexample :
    claim_classify cfgC3 "mystery-model".data = "Haiku".data ∧
    classify_tier cfgC3 "mystery-model".data = "Unknown".data ∧
    cfgC3.haiku_provider = "openrouter".data ∧
    cfgC3.OPENROUTER_API_KEY ≠ [] ∧
    (get_provider_config cfgC3 "my-haiku".data).provider_type = "openrouter".data ∧
    (get_provider_config cfgC3 "mystery-model".data).provider_type = "anthropic".data := by
  refine ⟨by decide, by decide, rfl, by decide, by decide, by decide⟩
